import Mathlib

/-!
Verification development for the competitive-insights pipeline.

The definitions below are a shallow embedding of the Python sources:

* `backend/services/deduplication.py`  (class `ResultDeduplicator`)
* `backend/services/news_fetcher.py`   (class `NewsFetcher`)
* `backend/agents/signal_detector.py`  (class `SignalDetector`)
* `backend/agents/competitive_intelligence_agent.py`
  (class `CompetitiveIntelligenceAgent`, a LangGraph state machine)

Modelling conventions:

* `datetime` values are modelled as `Int` seconds; `_normalize_datetime`
  only strips time zones, so timestamps are already naive integers here.
* Python floats in the deduplication service are only ever compared
  against the literals `0.2`, `0.6`, `0.7`; the ratios involved are
  rationals with tiny numerator and denominator, so the float comparisons
  agree with exact rational comparison, which is what we embed
  (`5*|inter| > |union|` for `> 0.2`, `10*|inter| > 7*|union|` for `> 0.7`,
  `ℚ` and `mkRat 6 10` for `confidence >= 0.6`).
* LLM / database collaborators are parameters.  A call that can raise is
  modelled with `Except String` (`.error` = the Python exception, the
  string being `str(e)`), a call that cannot raise as a plain function.
* Python `dict`s keyed by strings are association lists in insertion
  order (`dictInsert` overwrites in place like `d[k] = v`).
-/

/-! ## Data model (`backend/models/model.py`) -/

/-- `SourceType` enumeration from `models/model.py`. -/
inductive SourceType where
  | news | regulatory | social | industry | internal
  deriving DecidableEq, Repr

/-- `Result` pydantic model: one normalized fetched item.
`published_on : Int` models the parsed `datetime` as seconds. -/
structure Result where
  title : String
  link : String
  published : String
  published_on : Int
  source_type : SourceType
  text : String
  platform : String
  platform_name : String
  deriving DecidableEq, Repr

/-- `DeduplicationResult` pydantic model: the comparator LLM's structured
output.  `confidence` is a `ℚ` standing for the Python float in [0,1]. -/
structure DeduplicationResult where
  is_duplicate : Bool
  confidence : ℚ
  reason : String
  deriving DecidableEq, Repr

/-- The comparator collaborator (`self.llm.invoke` on the comparison
prompt inside `_compare_results`): `Option.none` models a raised
exception. -/
def Cmp : Type := Result → Result → Option DeduplicationResult

/-! ## Deduplication service (`backend/services/deduplication.py`) -/

/-- Python `str.lower()`, character by character. -/
def pyLower (s : String) : String := String.mk (s.data.map Char.toLower)

/-- Python slicing `s[:n]` by code points. -/
def pyTake (s : String) (n : Nat) : String := String.mk (s.data.take n)

/-- Helper for `pyWords`: walk the characters keeping the current word
(reversed); whitespace runs separate words, empty pieces are dropped. -/
def splitWordsAux : List Char → List Char → List String
  | [], cur => if cur = [] then [] else [String.mk cur.reverse]
  | c :: cs, cur =>
    if c.isWhitespace then
      if cur = [] then splitWordsAux cs []
      else String.mk cur.reverse :: splitWordsAux cs []
    else splitWordsAux cs (c :: cur)

/-- Python `str.split()`: split on whitespace runs, dropping empty
pieces. -/
def pyWords (s : String) : List String := splitWordsAux s.data []

/-- The set of whitespace-separated words of a string. -/
def wordSet (s : String) : Finset String := (pyWords s).toFinset

/-- `_simple_title_comparison`: fallback similarity of the lowercased
titles truncated to 50 characters; `similarity > 0.7` is embedded as
`10*|inter| > 7*|union|`. -/
def simple_title_comparison (r1 r2 : Result) : Bool :=
  let words1 := wordSet (pyTake (pyLower r1.title) 50)
  let words2 := wordSet (pyTake (pyLower r2.title) 50)
  if words1 = ∅ ∨ words2 = ∅ then false
  else 10 * (words1 ∩ words2).card > 7 * (words1 ∪ words2).card

/-- `_compare_results`: ask the comparator LLM; a duplicate needs
`is_duplicate` and `confidence >= 0.6`; on exception fall back to
`_simple_title_comparison`. -/
def compare_results (cmp : Cmp) (r1 r2 : Result) : Bool :=
  match cmp r1 r2 with
  | some d => d.is_duplicate && decide (mkRat 6 10 ≤ d.confidence)
  | Option.none => simple_title_comparison r1 r2

/-- The stop-word set removed in `_are_potentially_similar`. -/
def common_words : Finset String :=
  {"the", "a", "an", "and", "or", "but", "in", "on", "at", "to", "for",
   "of", "with", "by", "is", "are", "was", "were", "will", "would",
   "could", "should"}

/-- `_are_potentially_similar`: fast clustering predicate — timestamps
within 3 days and stop-word-stripped title-word Jaccard overlap `> 0.2`
(embedded as `5*|inter| > |union|`). -/
def are_potentially_similar (r1 r2 : Result) : Bool :=
  let time_diff := (r1.published_on - r2.published_on).natAbs
  if time_diff > 3 * 24 * 3600 then false
  else
    let title1_words := wordSet (pyLower r1.title) \ common_words
    let title2_words := wordSet (pyLower r2.title) \ common_words
    if title1_words = ∅ ∨ title2_words = ∅ then false
    else 5 * (title1_words ∩ title2_words).card >
      (title1_words ∪ title2_words).card

/-- Truthiness of the Python variable `assigned_cluster` (`None` or an
`int` cluster id): `None` and `0` are falsy.  This drives the literal
`if assigned_cluster: break` in `_create_similarity_clusters`. -/
def truthyId : Option Nat → Bool
  | Option.none => false
  | some n => n ≠ 0

/-- The cluster-search loop of `_create_similarity_clusters` for one
incoming `result`: walk the clusters (id = position); a cluster whose
first 3 members contain a fast-similar one sets `assigned_cluster`; the
walk stops early only when `if assigned_cluster:` is truthy. -/
def findAssigned (r : Result) : Nat → List (List Result) → Option Nat → Option Nat
  | _, [], acc => acc
  | cid, cl :: rest, acc =>
    let acc' := if (cl.take 3).any (fun c => are_potentially_similar r c)
      then some cid else acc
    if truthyId acc' then acc' else findAssigned r (cid + 1) rest acc'

/-- Append `r` to the cluster at position `i` (Python
`clusters[assigned_cluster].append(result)`). -/
def appendAt : List (List Result) → Nat → Result → List (List Result)
  | [], _, _ => []
  | cl :: cs, 0, r => (cl ++ [r]) :: cs
  | cl :: cs, n + 1, r => cl :: appendAt cs n r

/-- One iteration of the outer loop of `_create_similarity_clusters`. -/
def addToClusters (clusters : List (List Result)) (r : Result) :
    List (List Result) :=
  match findAssigned r 0 clusters Option.none with
  | some cid => appendAt clusters cid r
  | Option.none => clusters ++ [[r]]

/-- `_create_similarity_clusters`: the dict of clusters in insertion
order, represented as a list (cluster id = position). -/
def create_similarity_clusters (results : List Result) : List (List Result) :=
  results.foldl addToClusters []

/-- The inner `for j` loop of `_deduplicate_direct_comparison`, scanning
one still-unmarked result `x` against the unmarked results after it.
Returns whether `x` survives and the list with the results newly marked
as duplicates of `x` removed.  When `x` itself is marked
(`dt_i >= dt_j`) the Python loop `break`s, leaving the rest untouched. -/
def scanOne (cmp : Cmp) (x : Result) : List Result → Bool × List Result
  | [] => (true, [])
  | y :: ys =>
    if compare_results cmp x y then
      if y.published_on ≤ x.published_on then
        (false, y :: ys)
      else
        scanOne cmp x ys
    else
      let r := scanOne cmp x ys
      (r.1, y :: r.2)

/-- The outer `for i` loop of `_deduplicate_direct_comparison`.  The
loop consumes at least one unmarked result per iteration, so the list
length is a fuel bound making the recursion structural (the `0` case is
unreachable when `fuel ≥ l.length`, see `directGo_fuel_irrel`). -/
def directGo (cmp : Cmp) : Nat → List Result → List Result
  | _, [] => []
  | 0, l => l
  | fuel + 1, x :: xs =>
    let r := scanOne cmp x xs
    if r.1 then x :: directGo cmp fuel r.2 else directGo cmp fuel r.2

/-- `_deduplicate_direct_comparison`: pairwise elimination with the
persistent `duplicate_indices` set realized by physically removing
marked results. -/
def direct_comparison (cmp : Cmp) (l : List Result) : List Result :=
  directGo cmp l.length l

/-- `_deduplicate_with_clustering`: cluster, then deduplicate inside
each cluster (size-1 clusters pass through), concatenating in cluster
order. -/
def deduplicate_with_clustering (cmp : Cmp) (results : List Result) :
    List Result :=
  (create_similarity_clusters results).foldl
    (fun acc cl =>
      if cl.length = 1 then acc ++ cl else acc ++ direct_comparison cmp cl) []

/-- `deduplicate_results`: the public entry point. -/
def deduplicate_results (cmp : Cmp) (results : List Result) : List Result :=
  if results.length ≤ 1 then results else deduplicate_with_clustering cmp results

/-! ## News fetcher (`backend/services/news_fetcher.py`) -/

/-- A source adapter as seen by `NewsFetcher`: its `platform_id` and its
`fetch(company_name, days_back)` method.  Adapters never raise (spec
§4.1); they are plain functions.  `NewsFetcher.__init__` builds
`{src.platform_id: src}`; we take the adapter list directly, which is
the dict's iteration order when the platform ids are distinct (true for
the default `[GoogleNewsSource(), SECFilingsSource()]` configuration). -/
structure DataSource where
  platform_id : String
  fetch : String → Int → List Result

/-- `NewsFetcher._deduplicate_articles`: keep the first article for each
`article.title[:50].lower()` key. -/
def deduplicate_articles_go (seen : Finset String) : List Result → List Result
  | [] => []
  | a :: rest =>
    let title_key := pyLower (pyTake a.title 50)
    if title_key ∈ seen then deduplicate_articles_go seen rest
    else a :: deduplicate_articles_go (insert title_key seen) rest

/-- `NewsFetcher._deduplicate_articles` (seen-set starts empty). -/
def deduplicate_articles (articles : List Result) : List Result :=
  deduplicate_articles_go ∅ articles

/-- The concatenation of all adapters' results in adapter order (the
`all_articles` accumulator of `fetch_multiple_sources`). -/
def all_articles (srcs : List DataSource) (company_name : String)
    (days_back : Int) : List Result :=
  srcs.foldl (fun acc src => acc ++ src.fetch company_name days_back) []

/-- `NewsFetcher.fetch_multiple_sources` with `sources=None`: fetch from
every configured adapter, concatenate, then `_deduplicate_articles`
(the final sort is commented out in the source). -/
def fetch_multiple_sources (srcs : List DataSource) (company_name : String)
    (days_back : Int) : List Result :=
  deduplicate_articles (all_articles srcs company_name days_back)

/-! ## Signal detector (`backend/agents/signal_detector.py` and the
`Signal` model of `backend/models/model.py`) -/

/-- `SignalType` enumeration (the `none` member is the no-signal
sentinel). -/
inductive SignalType where
  | leadership | funding | acquisition | layoffs | expansion
  | partnership | none
  deriving DecidableEq, Repr

/-- `ImpactLevel` enumeration. -/
inductive ImpactLevel where
  | high | medium | low
  deriving DecidableEq, Repr

/-- `Confidence` enumeration. -/
inductive Confidence where
  | high | medium | low
  deriving DecidableEq, Repr

/-- `Signal` pydantic model. -/
structure Signal where
  type : SignalType
  impact : ImpactLevel
  title : String
  action : String
  amount : Option String
  person : Option String
  confidence : Confidence
  deriving DecidableEq, Repr

/-- The structured-output classifier collaborator behind
`SignalDetector.extract` (`self.llm.invoke(prompt)`), indexed by the
company name and text that build the prompt; `.error` models a raised
exception. -/
def Classifier : Type := String → String → Except String Signal

/-- `SignalDetector.extract`: invoke the classifier; filter the
`SignalType.none` sentinel to `None`; on exception return `None`. -/
def SignalDetector.extract (classify : Classifier) (company_name text : String) :
    Option Signal :=
  match classify company_name text with
  | Except.ok signal =>
    if signal.type = SignalType.none then Option.none else some signal
  | Except.error _ => Option.none

/-! ## Orchestrator (`backend/agents/competitive_intelligence_agent.py`)

The LangGraph workflow is embedded as: one Lean function per node, one
per conditional-edge function, and a small-step driver over
`Node × CIState`.  The state is `CompetitiveIntelligenceState` from
`models/agent_state.py`.  Collaborators (`news_fetcher`,
`signal_detector`, `db`, summary LLM) are parameters bundled in
`Collab`. -/

/-- One entry of `state["fetched_articles"][company]`: the article dict
built by `_news_fetcher_node` from a `Result`.  `published_on` keeps the
model timestamp (`None` is impossible here because `Result.published_on`
is required, but the dict allows it). -/
structure Article where
  title : String
  link : String
  text : String
  published : String
  published_on : Option Int
  platform_name : String
  source_type : SourceType
  deriving DecidableEq, Repr

/-- `_news_fetcher_node`'s dict conversion of one fetched `Result`. -/
def toArticle (r : Result) : Article :=
  { title := r.title, link := r.link, text := r.text,
    published := r.published, published_on := some r.published_on,
    platform_name := r.platform_name, source_type := r.source_type }

/-- One element of `state["extracted_signals"]`: the `signal.dict()`
payload plus the metadata added in `_signal_analyzer_node`.  The
`stored` key is absent until `_data_storage_node` sets it; `.get("stored",
False)` is modelled by `stored : Bool` defaulting to `false`. -/
structure SignalRec where
  signal : Signal
  company_name : String
  source_url : String
  detected_at : String
  stored : Bool
  deriving DecidableEq, Repr

/-- Python string-keyed dict in insertion order: lookup. -/
def dictGet (d : List (String × α)) (k : String) : Option α :=
  (d.find? (fun p => p.1 = k)).map (fun p => p.2)

/-- Python `d[k] = v`: overwrite in place, else append. -/
def dictInsert (d : List (String × α)) (k : String) (v : α) :
    List (String × α) :=
  if d.any (fun p => p.1 = k) then
    d.map (fun p => if p.1 = k then (k, v) else p)
  else d ++ [(k, v)]

/-- `CompetitiveIntelligenceState` (`models/agent_state.py`).  The
`results` payload dict is omitted: no conditional edge or claim reads
it, and the workflow ends right after either node that writes it. -/
structure CIState where
  companies : List String
  days_back : Int
  current_company : Option String
  fetched_articles : List (String × List Article)
  extracted_signals : List SignalRec
  total_articles : Nat
  total_signals : Nat
  errors : List String
  status : String
  progress : String
  deriving DecidableEq, Repr

/-- The collaborators of the agent.  `fetch` is
`news_fetcher.fetch_multiple_sources` (can raise — the node catches);
`extractSig` is the call `signal_detector.extract(company, text)` at
line 183 (can raise; NOTE the source passes only two arguments to a
three-argument method, so in the composed program this call always
raises `TypeError` — we keep it a parameter to cover the node's
behaviour for any outcome); `save` is `db.save_signal` (can raise, and
returns a possibly-falsy result); `insights` is the summary LLM call;
`now` is `datetime.now().isoformat()`. -/
structure Collab where
  fetch : String → Int → Except String (List Result)
  extractSig : String → String → Except String (Option Signal)
  save : SignalRec → Except String Bool
  insights : Except String String
  now : String

/-- Python truthiness of `state.get("current_company")`
(`Optional[str]`): both `None` and the empty string `""` are falsy. -/
def pyTruthy (o : Option String) : Bool :=
  match o with
  | Option.none => false
  | some c => decide (c ≠ "")

/-- `current_company in fetched_articles` (a `None` current company is
never a key of the dict, whose keys are strings). -/
def currentFetched (s : CIState) : Bool :=
  match s.current_company with
  | Option.none => false
  | some current => (dictGet s.fetched_articles current).isSome

/-- `_planner_node`: `if not current_company and companies:` selects the
first company (Python truthiness: a `None` or empty-string current
company both re-trigger this init branch); otherwise
`if current_company in fetched_articles:` advances past the current
company (via `companies.index`, the first-occurrence index) or, at the
last index, declares the run complete; otherwise the state is returned
unchanged.  `List.indexOf` models `companies.index` (the `ValueError`
case is unreachable because `current_company` is always drawn from
`companies`). -/
def plannerNode (s : CIState) : CIState :=
  if pyTruthy s.current_company = false ∧ s.companies ≠ [] then
    { s with current_company := some (s.companies.getD 0 ""),
             status := "fetching",
             progress := "Starting analysis for " ++ s.companies.getD 0 "" }
  else if currentFetched s then
    if s.companies.indexOf (s.current_company.getD "") + 1 <
        s.companies.length then
      { s with
          current_company := some (s.companies.getD
            (s.companies.indexOf (s.current_company.getD "") + 1) ""),
          status := "fetching",
          progress := "Starting analysis for " ++ s.companies.getD
            (s.companies.indexOf (s.current_company.getD "") + 1) "" }
    else
      { s with status := "complete",
               progress := "Analysis complete, generating summary..." }
  else s

/-- `_news_fetcher_node`: fetch articles for the current company; on
success record them (as dicts), bump `total_articles`, go to
`analyzing`; on exception append the error and go to `error`. -/
def newsFetcherNode (col : Collab) (s : CIState) : CIState :=
  let current := s.current_company.getD ""
  match col.fetch current s.days_back with
  | Except.ok articles =>
    { s with
        fetched_articles :=
          dictInsert s.fetched_articles current (articles.map toArticle),
        total_articles := s.total_articles + articles.length,
        status := "analyzing",
        progress := "Found articles for " ++ current }
  | Except.error e =>
    let error_msg := "Error fetching news for " ++ current ++ ": " ++ e
    { s with errors := s.errors ++ [error_msg], status := "error",
             progress := error_msg }

/-- The per-article loop body of `_signal_analyzer_node`, threaded over
`(extracted_signals, signals_found, errors)`: a successful extraction
appends the signal dict with metadata; a raised exception appends an
error message and continues; a `None` signal does nothing. -/
def processArticle (col : Collab) (current : String)
    (acc : List SignalRec × Nat × List String) (a : Article) :
    List SignalRec × Nat × List String :=
  match col.extractSig current a.text with
  | Except.ok (some signal) =>
    (acc.1 ++ [{ signal := signal, company_name := current,
                 source_url := a.link, detected_at := col.now,
                 stored := false }],
     acc.2.1 + 1, acc.2.2)
  | Except.ok Option.none => acc
  | Except.error e =>
    (acc.1, acc.2.1,
     acc.2.2 ++ ["Error processing article for " ++ current ++ ": " ++ e])

/-- `_signal_analyzer_node`: run the extraction call over the first 10
fetched articles of the current company (no deduplication happens
here), then go to `storing`. -/
def signalAnalyzerNode (col : Collab) (s : CIState) : CIState :=
  let current := s.current_company.getD ""
  let articles := (dictGet s.fetched_articles current).getD []
  let acc := (articles.take 10).foldl (processArticle col current)
    (s.extracted_signals, 0, s.errors)
  { s with extracted_signals := acc.1,
           total_signals := s.total_signals + acc.2.1,
           errors := acc.2.2,
           status := "storing",
           progress := "Found signals, storing data..." }

/-- The `for signal_dict in company_signals` loop of
`_data_storage_node`, walking the full `extracted_signals` list (the
Python list holds shared mutable dicts; filtering happens in the loop
condition).  Returns the updated list, the records on which
`db.save_signal` was invoked (in order), and the first raised exception
if any — the loop stops there, keeping earlier in-place marks. -/
def storeLoop (save : SignalRec → Except String Bool) (current : String) :
    List SignalRec → List SignalRec × List SignalRec × Option String
  | [] => ([], [], Option.none)
  | r :: rest =>
    if r.company_name = current ∧ r.stored = false then
      match save r with
      | Except.error e => (r :: rest, [r], some e)
      | Except.ok ok =>
        let r' := if ok then { r with stored := true } else r
        let t := storeLoop save current rest
        (r' :: t.1, r :: t.2.1, t.2.2)
    else
      let t := storeLoop save current rest
      (r :: t.1, t.2.1, t.2.2)

/-- `_data_storage_node`: save every not-yet-`stored` signal of the
current company, marking the successfully saved ones; on a raised save
exception append the error and go to `error`, else go back to
`fetching`.  The second component is the list of attempted saves (the
database insert calls), for stating storage idempotence. -/
def dataStorageNode (col : Collab) (s : CIState) : CIState × List SignalRec :=
  let current := s.current_company.getD ""
  let t := storeLoop col.save current s.extracted_signals
  match t.2.2 with
  | some e =>
    let error_msg := "Error storing signals: " ++ e
    ({ s with extracted_signals := t.1,
              errors := s.errors ++ [error_msg],
              status := "error", progress := error_msg }, t.2.1)
  | Option.none =>
    ({ s with extracted_signals := t.1, status := "fetching",
              progress := "Stored signals for " ++ current }, t.2.1)

/-- `_summarizer_node`.  The body groups the extracted signal dicts and
builds the results payload, but it reads `sig["signal_type"]` — a key
that `signal.dict()` never produces (the `Signal` field is named
`type`), both in the high-impact lines of the insights prompt and in
the `"types"`/`"high_impact_signals"` entries of the results dict.  So
whenever `extracted_signals` is non-empty the node raises `KeyError:
'signal_type'`, lands in its own `except`, and sets `status="error"`;
only a run with no extracted signals reaches `status="complete"`.  The
insights LLM call is caught separately and only affects the omitted
results payload. -/
def summarizerNode (s : CIState) : CIState :=
  let s1 := { s with progress := "Generating summary and insights..." }
  if s1.extracted_signals.isEmpty then
    { s1 with status := "complete",
              progress := "Analysis complete! Found signals" }
  else
    let error_msg := "Error generating summary: 'signal_type'"
    { s1 with errors := s1.errors ++ [error_msg], status := "error",
              progress := error_msg }

/-- `_error_handler_node`: terminal error reporting (the partial-results
payload goes to the omitted `results`). -/
def errorHandlerNode (s : CIState) : CIState :=
  { s with status := "error", progress := "Errors occurred" }

/-- The nodes of the compiled LangGraph workflow, plus the `END`
vertex. -/
inductive Node where
  | planner | newsFetcher | signalAnalyzer | dataStorage
  | summarizer | errorHandler | endNode
  deriving DecidableEq, Repr

/-- `_should_continue_planning`. -/
def shouldContinuePlanning (s : CIState) : Node :=
  if s.status = "error" then Node.errorHandler
  else if s.status = "complete" then Node.endNode
  else Node.newsFetcher

/-- `_should_continue_after_fetch` (the `"next_company"` label routes
back to the planner). -/
def shouldContinueAfterFetch (s : CIState) : Node :=
  if s.status = "error" then Node.errorHandler
  else if s.status = "analyzing" then Node.signalAnalyzer
  else Node.planner

/-- `_should_continue_after_analysis` (`"next_article"` exists as a
label but the node never sets a status that selects it; `"store"` goes
to storage, otherwise back to the planner). -/
def shouldContinueAfterAnalysis (s : CIState) : Node :=
  if s.status = "error" then Node.errorHandler
  else if s.status = "storing" then Node.dataStorage
  else Node.planner

/-- `_should_continue_after_storage`: on error route to the error
handler; `if current_company and companies:` (Python truthiness: a
`None` or empty-string current company skips the last-company check)
go to the summarizer when the current company's first-occurrence index
is last; otherwise `"next_company"` routes back to the planner. -/
def shouldContinueAfterStorage (s : CIState) : Node :=
  if s.status = "error" then Node.errorHandler
  else if pyTruthy s.current_company = true ∧ s.companies ≠ [] then
    if s.companies.length ≤
        s.companies.indexOf (s.current_company.getD "") + 1 then
      Node.summarizer
    else Node.planner
  else Node.planner

/-- Execute one node on the state. -/
def execNode (col : Collab) : Node → CIState → CIState
  | Node.planner, s => plannerNode s
  | Node.newsFetcher, s => newsFetcherNode col s
  | Node.signalAnalyzer, s => signalAnalyzerNode col s
  | Node.dataStorage, s => (dataStorageNode col s).1
  | Node.summarizer, s => summarizerNode s
  | Node.errorHandler, s => errorHandlerNode s
  | Node.endNode, s => s

/-- The conditional edge leaving each node (after it ran);
`summarizer` and `error_handler` have unconditional edges to `END`. -/
def routeFrom : Node → CIState → Node
  | Node.planner, s => shouldContinuePlanning s
  | Node.newsFetcher, s => shouldContinueAfterFetch s
  | Node.signalAnalyzer, s => shouldContinueAfterAnalysis s
  | Node.dataStorage, s => shouldContinueAfterStorage s
  | Node.summarizer, _ => Node.endNode
  | Node.errorHandler, _ => Node.endNode
  | Node.endNode, _ => Node.endNode

/-- One step of the compiled graph: run the pending node, then follow
its edge.  `END` is absorbing (`Option.none` = the invocation returned). -/
def stepRun (col : Collab) : Node × CIState → Option (Node × CIState)
  | (Node.endNode, _) => Option.none
  | (n, s) =>
    let s' := execNode col n s
    some (routeFrom n s', s')

/-- Run the graph for at most `fuel` steps. -/
def runMachine (col : Collab) : Nat → Node × CIState → Node × CIState
  | 0, p => p
  | fuel + 1, p =>
    match stepRun col p with
    | Option.none => p
    | some p' => runMachine col fuel p'

/-- The initial state built by `run_analysis` /`run_analysis_sync`. -/
def initialState (companies : List String) (days_back : Int) : CIState :=
  { companies := companies, days_back := days_back,
    current_company := Option.none, fetched_articles := [],
    extracted_signals := [], total_articles := 0, total_signals := 0,
    errors := [], status := "pending",
    progress := "Initializing analysis..." }

/-! ## Concrete fixtures

Concrete documents, comparators and collaborator bundles used by the
counterexamples and witnesses below. -/

/-- A document with the given title and timestamp (the other fields are
irrelevant to deduplication). -/
def mkDoc (t : String) (dt : Int) : Result :=
  { title := t, link := "", published := "", published_on := dt,
    source_type := SourceType.news, text := "", platform := "",
    platform_name := "" }

/-- A comparator behaviour that deterministically judges every pair a
duplicate with full confidence. -/
def cmpAlways : Cmp := fun _ _ => some ⟨true, 1, ""⟩

/-- A comparator that raises on every call. -/
def throwingCmp : Cmp := fun _ _ => Option.none

/-- Non-idempotence fixture: three identical-title reports, a fourth
joining their cluster through the shared word `alpha`, and a fifth that
only resembles the fourth (checked against the cluster's first 3
members, so it lands in its own cluster on the first pass). -/
def docA1 : Result := mkDoc "alpha beta" 100

def docA2 : Result := mkDoc "alpha beta" 90

def docA3 : Result := mkDoc "alpha beta" 80

def docA4 : Result := mkDoc "alpha zeta" 10

def docB1 : Result := mkDoc "zeta gamma" 5

/-- Clustering-bug fixture: `docZ3` is fast-similar to `docZ1`
(cluster 0) and to `docZ2` (cluster 1). -/
def docZ1 : Result := mkDoc "alpha beta" 0

def docZ2 : Result := mkDoc "gamma delta" 0

def docZ3 : Result := mkDoc "alpha beta gamma delta" 0

/-- Tie-break fixture: identical titles, published one hour apart. -/
def docEarly : Result := mkDoc "acme acquires beta corporation" 0

def docLate : Result := mkDoc "acme acquires beta corporation" 3600

/-- Acme scenario fixture: one event reported twice plus one distinct
event (no shared title words, so it clusters alone). -/
def docAcme1 : Result := mkDoc "acme acquires beta" 0

def docAcme2 : Result := mkDoc "acme acquires beta corporation" 3600

def docAcme3 : Result := mkDoc "quarterly earnings preview" 7200

/-- A fixed extracted signal used when the classifier succeeds. -/
def sigFunding : Signal :=
  { type := SignalType.funding, impact := ImpactLevel.medium,
    title := "Series B round", action := "Review account plan",
    amount := some "$50M", person := Option.none,
    confidence := Confidence.high }

/-- Collaborators for the Acme analyze-stage scenario: the extraction
call succeeds on every article with `sigFunding`. -/
def colSig : Collab :=
  { fetch := fun _ _ => Except.ok [docAcme1, docAcme2, docAcme3],
    extractSig := fun _ _ => Except.ok (some sigFunding),
    save := fun _ => Except.ok true,
    insights := Except.ok "insights", now := "2025-01-01T00:00:00" }

/-- The analyze-stage entry state for the Acme scenario: the fetch stage
has recorded Acme's three articles. -/
def stateAcme : CIState :=
  { companies := ["Acme"], days_back := 7, current_company := some "Acme",
    fetched_articles := [("Acme", [docAcme1, docAcme2, docAcme3].map toArticle)],
    extracted_signals := [], total_articles := 3, total_signals := 0,
    errors := [], status := "analyzing", progress := "" }

/-- Aggregator fixture: one adapter returning the same event twice with
identical titles. -/
def srcDup : DataSource :=
  { platform_id := "google_news", fetch := fun _ _ => [docEarly, docLate] }

/-- Aggregator fixture: one adapter returning two distinct-title
articles. -/
def srcTwo : DataSource :=
  { platform_id := "google_news", fetch := fun _ _ => [docAcme1, docAcme3] }

/-- Storage fixture: a not-yet-stored Acme record. -/
def recUnstored : SignalRec :=
  { signal := sigFunding, company_name := "Acme", source_url := "u1",
    detected_at := "t", stored := false }

/-- Storage fixture: a record of another company. -/
def recOther : SignalRec :=
  { signal := sigFunding, company_name := "Beta", source_url := "u2",
    detected_at := "t", stored := false }

/-- Storage fixture: an Acme record already marked stored. -/
def recStored : SignalRec :=
  { signal := sigFunding, company_name := "Acme", source_url := "u3",
    detected_at := "t", stored := true }

/-- Storage-stage entry state fixture. -/
def stateStore : CIState :=
  { companies := ["Acme"], days_back := 7, current_company := some "Acme",
    fetched_articles := [("Acme", [])],
    extracted_signals := [recUnstored, recOther, recStored],
    total_articles := 0, total_signals := 1, errors := [],
    status := "storing", progress := "" }

/-- Collaborators for machine runs: fetch yields one article, the
extraction call raises (as the composed source's two-argument call
does), saves succeed. -/
def colOK : Collab :=
  { fetch := fun _ _ => Except.ok [docEarly],
    extractSig := fun _ _ => Except.error "TypeError",
    save := fun _ => Except.ok true,
    insights := Except.ok "insights", now := "t" }

/-- Modelled from the spec wording for the fallback heuristic: the
token-Jaccard similarity of the lowercased first-50-character titles as
an exact rational (`0` when the union is empty, mirroring the
`if union else 0` guard).  Used to compare the code's integer test
against the spec's "similarity > 0.7". -/
def titleJaccard (r1 r2 : Result) : ℚ :=
  let words1 := wordSet (pyTake (pyLower r1.title) 50)
  let words2 := wordSet (pyTake (pyLower r2.title) 50)
  if words1 ∪ words2 = ∅ then 0
  else ((words1 ∩ words2).card : ℚ) / ((words1 ∪ words2).card : ℚ)

/-- Run invariant for a company list whose position `j` holds a name
that already occurred earlier (`companies[j] ∈ companies.take j`): the
run keeps cycling through the four processing nodes, the status never
reaches `complete` or `error`, and the current company is always drawn
from the first `j + 1` positions. -/
def MachineInv (companies : List String) (j : Nat) (p : Node × CIState) :
    Prop :=
  p.2.companies = companies ∧
  p.2.status ≠ "complete" ∧
  p.2.status ≠ "error" ∧
  (p.1 = Node.planner ∨ p.1 = Node.newsFetcher ∨
    p.1 = Node.signalAnalyzer ∨ p.1 = Node.dataStorage) ∧
  (match p.2.current_company with
   | Option.none => p.1 = Node.planner
   | some c =>
     (∃ m, ∃ hm : m < companies.length, m ≤ j ∧ c = companies.get ⟨m, hm⟩) ∧
     (p.1 ≠ Node.newsFetcher → (dictGet p.2.fetched_articles c).isSome))

/-- The `fetched_articles` dict built by a run that fetched each listed
company once, in order. -/
def mapFetched (fetchOut : String → List Result) (cs : List String) :
    List (String × List Article) :=
  cs.map (fun c => (c, (fetchOut c).map toArticle))

/-! ## Helper lemmas -/

theorem scanOne_length_le (cmp : Cmp) (x : Result) (l : List Result) :
    (scanOne cmp x l).2.length ≤ l.length := by
  induction l with
  | nil => simp [scanOne]
  | cons y ys ih =>
    simp only [scanOne]
    split
    · split
      · simp
      · exact le_trans ih (Nat.le_succ _)
    · simpa using ih

/-- `directGo` does not depend on the fuel once it covers the list
length. -/
theorem directGo_fuel_irrel (cmp : Cmp) :
    ∀ (fuel₁ fuel₂ : Nat) (l : List Result), l.length ≤ fuel₁ →
      l.length ≤ fuel₂ → directGo cmp fuel₁ l = directGo cmp fuel₂ l := by
  intro fuel₁
  induction fuel₁ with
  | zero =>
    intro fuel₂ l h₁ _
    have : l = [] := List.length_eq_zero.mp (Nat.le_zero.mp h₁)
    subst this
    cases fuel₂ <;> simp [directGo]
  | succ f ih =>
    intro fuel₂ l h₁ h₂
    cases l with
    | nil => cases fuel₂ <;> simp [directGo]
    | cons x xs =>
      cases fuel₂ with
      | zero => simp at h₂
      | succ f₂ =>
        simp only [directGo]
        have hx : (scanOne cmp x xs).2.length ≤ f :=
          le_trans (scanOne_length_le cmp x xs) (Nat.succ_le_succ_iff.mp h₁)
        have hx₂ : (scanOne cmp x xs).2.length ≤ f₂ :=
          le_trans (scanOne_length_le cmp x xs) (Nat.succ_le_succ_iff.mp h₂)
        rw [ih f₂ _ hx hx₂]

/-- Unfolding equation for `direct_comparison` on a nonempty list. -/
theorem direct_comparison_cons (cmp : Cmp) (x : Result) (xs : List Result) :
    direct_comparison cmp (x :: xs) =
      (if (scanOne cmp x xs).1 then
        x :: direct_comparison cmp (scanOne cmp x xs).2
      else direct_comparison cmp (scanOne cmp x xs).2) := by
  simp only [direct_comparison, List.length_cons, directGo]
  have h := scanOne_length_le cmp x xs
  rw [directGo_fuel_irrel cmp xs.length (scanOne cmp x xs).2.length _ h le_rfl]


theorem scanOne_sublist (cmp : Cmp) (x : Result) (l : List Result) :
    (scanOne cmp x l).2.Sublist l := by
  induction l with
  | nil => simp [scanOne]
  | cons y ys ih =>
    simp only [scanOne]
    split
    · split
      · simp
      · exact ih.trans (List.sublist_cons_self y ys)
    · simpa using ih

theorem directGo_sublist (cmp : Cmp) :
    ∀ (fuel : Nat) (l : List Result), (directGo cmp fuel l).Sublist l := by
  intro fuel
  induction fuel with
  | zero => intro l; cases l <;> simp [directGo]
  | succ f ih =>
    intro l
    cases l with
    | nil => simp [directGo]
    | cons x xs =>
      simp only [directGo]
      have h := (ih (scanOne cmp x xs).2).trans (scanOne_sublist cmp x xs)
      split
      · exact h.cons₂ x
      · exact h.trans (List.sublist_cons_self x xs)

theorem direct_comparison_sublist (cmp : Cmp) (l : List Result) :
    (direct_comparison cmp l).Sublist l :=
  directGo_sublist cmp l.length l

theorem findAssigned_some_lt (r : Result) :
    ∀ (cs : List (List Result)) (n : Nat) (acc : Option Nat) (cid : Nat),
      (∀ a, acc = some a → a < n) → findAssigned r n cs acc = some cid →
      cid < n + cs.length := by
  intro cs
  induction cs with
  | nil =>
    intro n acc cid hacc h
    simp only [findAssigned] at h
    simpa using hacc cid h
  | cons cl rest ih =>
    intro n acc cid hacc h
    simp only [findAssigned] at h
    by_cases hP : ((cl.take 3).any (fun c => are_potentially_similar r c)) = true
    · rw [if_pos hP] at h
      by_cases ht : truthyId (some n) = true
      · rw [if_pos ht] at h
        cases h
        simp only [List.length_cons]
        omega
      · rw [if_neg ht] at h
        have := ih (n + 1) (some n) cid (by intro a ha; cases ha; omega) h
        simp only [List.length_cons]
        omega
    · rw [if_neg hP] at h
      by_cases ht : truthyId acc = true
      · rw [if_pos ht] at h
        have := hacc cid h; omega
      · rw [if_neg ht] at h
        have := ih (n + 1) acc cid
          (fun a ha => Nat.lt_succ_of_lt (hacc a ha)) h
        simp only [List.length_cons]
        omega

theorem appendAt_join_perm (r : Result) :
    ∀ (cs : List (List Result)) (i : Nat), i < cs.length →
      ((appendAt cs i r).join).Perm (cs.join ++ [r]) := by
  intro cs
  induction cs with
  | nil => intro i h; simp at h
  | cons cl rest ih =>
    intro i h
    cases i with
    | zero =>
      simp only [appendAt, List.join_cons, List.append_assoc]
      exact (@List.perm_append_comm _ [r] rest.join).append_left cl
    | succ n =>
      simp only [appendAt, List.join_cons, List.append_assoc]
      exact (ih n (by simpa using h)).append_left cl

theorem addToClusters_join_perm (cs : List (List Result)) (r : Result) :
    ((addToClusters cs r).join).Perm (cs.join ++ [r]) := by
  unfold addToClusters
  split
  · next cid h =>
    exact appendAt_join_perm r cs cid
      (by simpa using findAssigned_some_lt r cs 0 Option.none cid (by simp) h)
  · simp

theorem create_clusters_join_perm (l : List Result) :
    ((create_similarity_clusters l).join).Perm l := by
  suffices h : ∀ (cs : List (List Result)),
      ((l.foldl addToClusters cs).join).Perm (cs.join ++ l) by
    simpa using h []
  induction l with
  | nil => intro cs; simp
  | cons x xs ih =>
    intro cs
    simp only [List.foldl_cons]
    refine (ih (addToClusters cs x)).trans ?_
    have := (addToClusters_join_perm cs x).append_right xs
    simpa using this.trans (by simp)

theorem dedup_clustering_eq (cmp : Cmp) (l : List Result) :
    deduplicate_with_clustering cmp l =
      ((create_similarity_clusters l).map
        (fun cl => if cl.length = 1 then cl else direct_comparison cmp cl)).join := by
  unfold deduplicate_with_clustering
  suffices h : ∀ (cs : List (List Result)) (acc : List Result),
      cs.foldl (fun acc cl =>
        if cl.length = 1 then acc ++ cl else acc ++ direct_comparison cmp cl) acc =
      acc ++ (cs.map (fun cl =>
        if cl.length = 1 then cl else direct_comparison cmp cl)).join by
    simpa using h (create_similarity_clusters l) []
  intro cs
  induction cs with
  | nil => intro acc; simp
  | cons cl rest ih =>
    intro acc
    simp only [List.foldl_cons, List.map_cons, List.join_cons]
    split <;> rw [ih] <;> simp

theorem deduplicate_results_mem (cmp : Cmp) (l : List Result) (x : Result)
    (hx : x ∈ deduplicate_results cmp l) : x ∈ l := by
  unfold deduplicate_results at hx
  split at hx
  · exact hx
  · rw [dedup_clustering_eq] at hx
    rw [List.mem_join] at hx
    obtain ⟨part, hpart, hxp⟩ := hx
    rw [List.mem_map] at hpart
    obtain ⟨cl, hcl, rfl⟩ := hpart
    have hxcl : x ∈ cl := by
      by_cases h1 : cl.length = 1
      · simpa [h1] using hxp
      · simp only [if_neg h1] at hxp
        exact (direct_comparison_sublist cmp cl).mem hxp
    exact (create_clusters_join_perm l).mem_iff.mp (List.mem_join.mpr ⟨cl, hcl, hxcl⟩)

theorem deduplicate_results_length (cmp : Cmp) (l : List Result) :
    (deduplicate_results cmp l).length ≤ l.length := by
  unfold deduplicate_results
  split
  · exact le_rfl
  · rw [dedup_clustering_eq]
    calc (((create_similarity_clusters l).map
        (fun cl => if cl.length = 1 then cl else direct_comparison cmp cl)).join).length
        = (((create_similarity_clusters l).map
            (fun cl => if cl.length = 1 then cl else direct_comparison cmp cl)).map
            List.length).sum := by
          rw [List.length_join]
      _ ≤ ((create_similarity_clusters l).map List.length).sum := by
          rw [List.map_map]
          apply List.sum_le_sum
          intro cl _
          simp only [Function.comp]
          split
          · exact le_rfl
          · exact (direct_comparison_sublist cmp cl).length_le
      _ = ((create_similarity_clusters l).join).length := (List.length_join _).symm
      _ = l.length := (create_clusters_join_perm l).length_eq

/-! ## Claims -/

/-- **C6.**  With a comparator that raises on every call,
`deduplicate_results` still terminates and returns a subset of its
input (no unhandled failure), and a pair is judged duplicate exactly
when the token-Jaccard similarity of the lowercased first 50 characters
of the two titles strictly exceeds `0.7`. -/
theorem throwing_comparator_fallback (r1 r2 : Result) (results : List Result) :
    compare_results throwingCmp r1 r2 = simple_title_comparison r1 r2 ∧
    (compare_results throwingCmp r1 r2 = true ↔
      (7 : ℚ) / 10 < titleJaccard r1 r2) ∧
    (∀ x ∈ deduplicate_results throwingCmp results, x ∈ results) ∧
    (deduplicate_results throwingCmp results).length ≤ results.length := by
  refine ⟨rfl, ?_, fun x hx => deduplicate_results_mem _ _ x hx,
    deduplicate_results_length _ _⟩
  show simple_title_comparison r1 r2 = true ↔ _
  unfold simple_title_comparison titleJaccard
  set w1 := wordSet (pyTake (pyLower r1.title) 50) with hw1
  set w2 := wordSet (pyTake (pyLower r2.title) 50) with hw2
  by_cases h : w1 = ∅ ∨ w2 = ∅
  · rw [if_pos h]
    have hinter : w1 ∩ w2 = ∅ := by
      rcases h with h | h <;> simp [h]
    constructor
    · intro hfalse
      exact absurd hfalse Bool.false_ne_true
    · intro hlt
      exfalso
      rcases eq_or_ne (w1 ∪ w2) ∅ with hu | hu
      · rw [if_pos hu] at hlt
        exact absurd hlt (by norm_num)
      · rw [if_neg hu, hinter] at hlt
        simp only [Finset.card_empty, Nat.cast_zero, zero_div] at hlt
        exact absurd hlt (by norm_num)
  · rw [if_neg h]
    push_neg at h
    have hne : (w1 ∪ w2).Nonempty := by
      rcases Finset.nonempty_iff_ne_empty.mpr h.1 with ⟨a, ha⟩
      exact ⟨a, Finset.mem_union_left _ ha⟩
    have hu : w1 ∪ w2 ≠ ∅ := Finset.nonempty_iff_ne_empty.mp hne
    rw [if_neg hu]
    have hupos : (0 : ℚ) < ((w1 ∪ w2).card : ℚ) := by
      exact_mod_cast Finset.card_pos.mpr hne
    rw [decide_eq_true_iff, div_lt_div_iff (by norm_num) hupos]
    constructor
    · intro hgt
      have hnat : 7 * (w1 ∪ w2).card < (w1 ∩ w2).card * 10 := by omega
      exact_mod_cast hnat
    · intro hlt
      have hnat : 7 * (w1 ∪ w2).card < (w1 ∩ w2).card * 10 := by
        exact_mod_cast hlt
      omega

/-- Witness for `throwing_comparator_fallback` at a concrete pair and
document list. -/
theorem throwing_comparator_fallback_witness :
    docEarly ∈ deduplicate_results throwingCmp [docEarly, docLate] ∧
    docEarly ∈ [docEarly, docLate] :=
  ⟨by decide,
    (throwing_comparator_fallback docEarly docLate [docEarly, docLate]).2.2.1
      docEarly (by decide)⟩

/-- **C7.**  `SignalDetector.extract` never raises: a classifier
exception yields `none`; a classifier signal carrying the
`SignalType.none` sentinel yields `none`; any other classifier signal
is returned unchanged. -/
theorem extract_never_raises (classify : Classifier)
    (company_name text : String) :
    (∀ e, classify company_name text = Except.error e →
      SignalDetector.extract classify company_name text = Option.none) ∧
    (∀ sg, classify company_name text = Except.ok sg →
      sg.type = SignalType.none →
      SignalDetector.extract classify company_name text = Option.none) ∧
    (∀ sg, classify company_name text = Except.ok sg →
      sg.type ≠ SignalType.none →
      SignalDetector.extract classify company_name text = some sg) := by
  refine ⟨?_, ?_, ?_⟩
  · intro e he
    simp [SignalDetector.extract, he]
  · intro sg hsg ht
    simp [SignalDetector.extract, hsg, ht]
  · intro sg hsg ht
    simp [SignalDetector.extract, hsg, ht]

/-- Witness for `extract_never_raises` with a classifier that returns a
funding signal. -/
theorem extract_never_raises_witness :
    SignalDetector.extract (fun _ _ => Except.ok sigFunding) "Acme" "text" =
      some sigFunding :=
  (extract_never_raises (fun _ _ => Except.ok sigFunding) "Acme" "text").2.2
    sigFunding rfl (by decide)

theorem deduplicate_articles_go_sublist (seen : Finset String)
    (l : List Result) : (deduplicate_articles_go seen l).Sublist l := by
  induction l generalizing seen with
  | nil => simp [deduplicate_articles_go]
  | cons a rest ih =>
    simp only [deduplicate_articles_go]
    split
    · exact (ih seen).trans (List.sublist_cons_self a rest)
    · exact (ih _).cons₂ a

theorem deduplicate_articles_go_nodup (l : List Result) :
    ∀ (seen : Finset String),
      (l.map (fun a => pyLower (pyTake a.title 50))).Nodup →
      (∀ a ∈ l, pyLower (pyTake a.title 50) ∉ seen) →
      deduplicate_articles_go seen l = l := by
  induction l with
  | nil => intro seen _ _; rfl
  | cons a rest ih =>
    intro seen hnd hs
    rw [List.map_cons, List.nodup_cons] at hnd
    simp only [deduplicate_articles_go]
    rw [if_neg (hs a (List.mem_cons_self a rest))]
    congr 1
    apply ih _ hnd.2
    intro b hb hmem
    rcases Finset.mem_insert.mp hmem with h | h
    · exact hnd.1 (List.mem_map.mpr ⟨b, hb, h⟩)
    · exact hs b (List.mem_cons_of_mem a hb) h

theorem scanOne_false_elim (cmp : Cmp) (x : Result) (l : List Result)
    (h : (scanOne cmp x l).1 = false) :
    ∃ y ∈ l, compare_results cmp x y = true ∧
      y.published_on ≤ x.published_on := by
  induction l with
  | nil => simp [scanOne] at h
  | cons y ys ih =>
    simp only [scanOne] at h
    by_cases hc : compare_results cmp x y = true
    · rw [if_pos hc] at h
      by_cases hd : y.published_on ≤ x.published_on
      · exact ⟨y, List.mem_cons_self y ys, hc, hd⟩
      · rw [if_neg hd] at h
        obtain ⟨z, hz, h1, h2⟩ := ih h
        exact ⟨z, List.mem_cons_of_mem y hz, h1, h2⟩
    · rw [if_neg hc] at h
      obtain ⟨z, hz, h1, h2⟩ := ih h
      exact ⟨z, List.mem_cons_of_mem y hz, h1, h2⟩

theorem scanOne_dropped (cmp : Cmp) (x : Result) (l : List Result) :
    ∀ z ∈ l, z ∉ (scanOne cmp x l).2 →
      compare_results cmp x z = true ∧
      x.published_on < z.published_on := by
  induction l with
  | nil => simp
  | cons y ys ih =>
    intro z hz hnot
    simp only [scanOne] at hnot
    by_cases hc : compare_results cmp x y = true
    · rw [if_pos hc] at hnot
      by_cases hd : y.published_on ≤ x.published_on
      · rw [if_pos hd] at hnot
        exact absurd hz hnot
      · rw [if_neg hd] at hnot
        rcases List.mem_cons.mp hz with rfl | hz'
        · exact ⟨hc, not_le.mp hd⟩
        · exact ih z hz' hnot
    · rw [if_neg hc] at hnot
      rcases List.mem_cons.mp hz with rfl | hz'
      · exact absurd (List.mem_cons_self _ _) hnot
      · exact ih z hz' (fun hmem => hnot (List.mem_cons_of_mem y hmem))

theorem directGo_elim (cmp : Cmp) :
    ∀ (fuel : Nat) (l : List Result), l.length ≤ fuel →
      ∀ x ∈ l, x ∉ directGo cmp fuel l →
        ∃ y ∈ l,
          (compare_results cmp y x = true ∧
            y.published_on < x.published_on) ∨
          (compare_results cmp x y = true ∧
            y.published_on ≤ x.published_on) := by
  intro fuel
  induction fuel with
  | zero =>
    intro l hl x hx
    have : l = [] := List.length_eq_zero.mp (Nat.le_zero.mp hl)
    subst this
    simp at hx
  | succ f ih =>
    intro l hl x hx hnot
    cases l with
    | nil => simp at hx
    | cons h t =>
      simp only [directGo] at hnot
      have hlen : (scanOne cmp h t).2.length ≤ f :=
        le_trans (scanOne_length_le cmp h t) (Nat.succ_le_succ_iff.mp hl)
      by_cases hs : (scanOne cmp h t).1 = true
      · rw [if_pos hs] at hnot
        rcases List.mem_cons.mp hx with rfl | hx'
        · exact absurd (List.mem_cons_self _ _) hnot
        · by_cases hr : x ∈ (scanOne cmp h t).2
          · obtain ⟨y, hy, hcase⟩ := ih _ hlen x hr
              (fun hm => hnot (List.mem_cons_of_mem _ hm))
            exact ⟨y,
              List.mem_cons_of_mem h ((scanOne_sublist cmp h t).subset hy),
              hcase⟩
          · have hd := scanOne_dropped cmp h t x hx' hr
            exact ⟨h, List.mem_cons_self h t, Or.inl ⟨hd.1, hd.2⟩⟩
      · rw [if_neg hs] at hnot
        rcases List.mem_cons.mp hx with rfl | hx'
        · obtain ⟨y, hy, h1, h2⟩ :=
            scanOne_false_elim cmp x t (Bool.not_eq_true _ ▸ hs)
          exact ⟨y, List.mem_cons_of_mem x hy, Or.inr ⟨h1, h2⟩⟩
        · by_cases hr : x ∈ (scanOne cmp h t).2
          · obtain ⟨y, hy, hcase⟩ := ih _ hlen x hr hnot
            exact ⟨y,
              List.mem_cons_of_mem h ((scanOne_sublist cmp h t).subset hy),
              hcase⟩
          · have hd := scanOne_dropped cmp h t x hx' hr
            exact ⟨h, List.mem_cons_self h t, Or.inl ⟨hd.1, hd.2⟩⟩

theorem direct_comparison_elim (cmp : Cmp) (l : List Result) (x : Result)
    (hx : x ∈ l) (hnot : x ∉ direct_comparison cmp l) :
    ∃ y ∈ l,
      (compare_results cmp y x = true ∧ y.published_on < x.published_on) ∨
      (compare_results cmp x y = true ∧ y.published_on ≤ x.published_on) :=
  directGo_elim cmp l.length l le_rfl x hx hnot

theorem direct_comparison_pair (cmp : Cmp) (a b : Result)
    (hdup : compare_results cmp a b = true) :
    direct_comparison cmp [a, b] =
      if b.published_on ≤ a.published_on then [b] else [a] := by
  simp only [direct_comparison, List.length_cons, List.length_nil, directGo,
    scanOne, hdup, if_true]
  by_cases hd : b.published_on ≤ a.published_on <;>
    simp [hd, directGo, scanOne]

theorem processArticle_foldl (col : Collab) (current : String) :
    ∀ (arts : List Article) (sigs : List SignalRec) (n : Nat)
      (errs : List String),
      arts.foldl (processArticle col current) (sigs, n, errs) =
        (sigs ++ arts.filterMap (fun a =>
            match col.extractSig current a.text with
            | Except.ok (some sg) => some
                { signal := sg, company_name := current,
                  source_url := a.link, detected_at := col.now,
                  stored := false }
            | _ => Option.none),
         n + arts.countP (fun a =>
            match col.extractSig current a.text with
            | Except.ok (some _) => true
            | _ => false),
         errs ++ arts.filterMap (fun a =>
            match col.extractSig current a.text with
            | Except.error e =>
              some ("Error processing article for " ++ current ++ ": " ++ e)
            | _ => Option.none)) := by
  intro arts
  induction arts with
  | nil => intro sigs n errs; simp
  | cons a rest ih =>
    intro sigs n errs
    simp only [List.foldl_cons, List.filterMap_cons, List.countP_cons]
    cases hx : col.extractSig current a.text with
    | ok o =>
      cases o with
      | some sg =>
        simp only [processArticle, hx, ih]
        refine Prod.ext ?_ (Prod.ext ?_ ?_) <;> simp
        omega
      | none =>
        simp only [processArticle, hx, ih]
        refine Prod.ext ?_ (Prod.ext ?_ ?_) <;> simp
    | error e =>
      simp only [processArticle, hx, ih]
      refine Prod.ext ?_ (Prod.ext ?_ ?_) <;> simp

/-- **C1 counterexample.**  In the Acme scenario (3 fetched documents,
one event reported twice), the Deduplicator would keep 2 documents, yet
`_signal_analyzer_node` passes all 3 fetched articles to the extraction
call (it never invokes the Deduplicator): with an always-successful
extractor 3 signals are produced, not the 2 the claim predicts. -/
theorem analyze_stage_skips_deduplicator :
    (deduplicate_results cmpAlways [docAcme1, docAcme2, docAcme3]).length
      = 2 ∧
    (signalAnalyzerNode colSig stateAcme).extracted_signals.length = 3 ∧
    (signalAnalyzerNode colSig stateAcme).total_signals = 3 ∧
    (signalAnalyzerNode colSig stateAcme).total_signals ≠ 2 :=
  ⟨by decide, by decide, by decide, by decide⟩

/-- **C1 amended.**  The analyze stage applies no deduplication: it runs
the extraction call once per fetched article of the current company,
capped at the first 10; with an extractor that always yields a signal,
the number of analyzed documents equals the number of fetched articles
capped at 10, and no error is recorded. -/
theorem analyze_stage_processes_first_ten (col : Collab) (s : CIState)
    (sg : Signal)
    (hex : ∀ c t, col.extractSig c t = Except.ok (some sg)) :
    (signalAnalyzerNode col s).total_signals =
      s.total_signals +
        (((dictGet s.fetched_articles
            (s.current_company.getD "")).getD []).take 10).length ∧
    (signalAnalyzerNode col s).errors = s.errors ∧
    (signalAnalyzerNode col s).status = "storing" := by
  have h := processArticle_foldl col (s.current_company.getD "")
    (((dictGet s.fetched_articles (s.current_company.getD "")).getD []).take 10)
    s.extracted_signals 0 s.errors
  simp only [signalAnalyzerNode, h]
  refine ⟨?_, ?_, by trivial⟩
  · have hc : (((dictGet s.fetched_articles
        (s.current_company.getD "")).getD []).take 10).countP (fun a =>
          match col.extractSig (s.current_company.getD "") a.text with
          | Except.ok (some _) => true
          | _ => false) =
        (((dictGet s.fetched_articles
          (s.current_company.getD "")).getD []).take 10).length := by
      apply List.countP_eq_length.mpr
      intro a _
      simp [hex]
    simp [hc]
  · have he : (((dictGet s.fetched_articles
        (s.current_company.getD "")).getD []).take 10).filterMap (fun a =>
          match col.extractSig (s.current_company.getD "") a.text with
          | Except.error e =>
            some ("Error processing article for " ++
              (s.current_company.getD "") ++ ": " ++ e)
          | _ => Option.none) = [] := by
      apply List.filterMap_eq_nil.mpr
      intro a _
      simp [hex]
    simp [he]

/-- Witness for `analyze_stage_processes_first_ten` on the Acme state. -/
theorem analyze_stage_processes_first_ten_witness :
    (signalAnalyzerNode colSig stateAcme).total_signals =
      stateAcme.total_signals +
        (((dictGet stateAcme.fetched_articles
            (stateAcme.current_company.getD "")).getD []).take 10).length :=
  (analyze_stage_processes_first_ten colSig stateAcme sigFunding
    (fun _ _ => rfl)).1

/-- **C2 counterexample.**  With the fixed deterministic comparator
`cmpAlways`, deduplicating `[docA1, docA2, docA3, docA4, docB1]` yields
`[docA4, docB1]`, but deduplicating that output again merges `docA4`
and `docB1` — on the first pass `docB1` was only checked against the
first 3 members of the `docA`-cluster — and yields `[docB1]`:
`deduplicate_results` is not idempotent. -/
theorem deduplicate_results_not_idempotent :
    deduplicate_results cmpAlways [docA1, docA2, docA3, docA4, docB1] =
      [docA4, docB1] ∧
    deduplicate_results cmpAlways
        (deduplicate_results cmpAlways [docA1, docA2, docA3, docA4, docB1]) =
      [docB1] ∧
    deduplicate_results cmpAlways
        (deduplicate_results cmpAlways [docA1, docA2, docA3, docA4, docB1]) ≠
      deduplicate_results cmpAlways [docA1, docA2, docA3, docA4, docB1] :=
  ⟨by decide, by decide, by decide⟩

/-- **C2 amended.**  A second deduplication pass returns a subset of the
first pass's output and never grows it (idempotence up to inclusion),
though the lists need not be equal. -/
theorem deduplicate_results_twice_subset (cmp : Cmp)
    (documents : List Result) :
    (∀ x ∈ deduplicate_results cmp (deduplicate_results cmp documents),
      x ∈ deduplicate_results cmp documents) ∧
    (deduplicate_results cmp (deduplicate_results cmp documents)).length ≤
      (deduplicate_results cmp documents).length :=
  ⟨fun x hx => deduplicate_results_mem _ _ x hx,
    deduplicate_results_length _ _⟩

/-- Witness for `deduplicate_results_twice_subset` on the fixture
list. -/
theorem deduplicate_results_twice_subset_witness :
    docB1 ∈ deduplicate_results cmpAlways
      (deduplicate_results cmpAlways [docA1, docA2, docA3, docA4, docB1]) ∧
    docB1 ∈ deduplicate_results cmpAlways [docA1, docA2, docA3, docA4, docB1] :=
  ⟨by decide,
    (deduplicate_results_twice_subset cmpAlways
      [docA1, docA2, docA3, docA4, docB1]).1 docB1 (by decide)⟩

/-- **C3.**  `docZ3` is fast-similar to a member of cluster 0 (created
first) and to a member of cluster 1, but it joins cluster 1: the loop
exit `if assigned_cluster:` treats the matched cluster id 0 as falsy
(`0` is falsy in Python), so the walk continues and a later matching
cluster overwrites the assignment, although `assigned_cluster is not
None` four lines below shows the id-0 match was meant to count.  The
spec's "first matching cluster wins" (the claim) describes the
intent. -/
theorem clustering_skips_matching_cluster_zero :
    are_potentially_similar docZ3 docZ1 = true ∧
    are_potentially_similar docZ3 docZ2 = true ∧
    create_similarity_clusters [docZ1, docZ2, docZ3] =
      [[docZ1], [docZ2, docZ3]] ∧
    create_similarity_clusters [docZ1, docZ2, docZ3] ≠
      [[docZ1, docZ3], [docZ2]] :=
  ⟨by decide, by decide, by decide, by decide⟩

/-- **C4 counterexample.**  The Aggregator does not return the bare
adapter-order concatenation: `fetch_multiple_sources` removes the
second of two articles sharing a lowercased 50-character title key. -/
theorem aggregator_drops_duplicate_titles :
    all_articles [srcDup] "Acme" 7 = [docEarly, docLate] ∧
    fetch_multiple_sources [srcDup] "Acme" 7 = [docEarly] ∧
    fetch_multiple_sources [srcDup] "Acme" 7 ≠
      all_articles [srcDup] "Acme" 7 :=
  ⟨by decide, by decide, by decide⟩

/-- **C4 amended.**  The Aggregator concatenates the adapters' results
in adapter order and then keeps only the first article for each
lowercased 50-character title key: the output is an order-preserving
sublist of the concatenation, and equals it whenever the title keys are
pairwise distinct. -/
theorem aggregator_is_filtered_concatenation (srcs : List DataSource)
    (company_name : String) (days_back : Int) :
    (fetch_multiple_sources srcs company_name days_back).Sublist
      (all_articles srcs company_name days_back) ∧
    (((all_articles srcs company_name days_back).map
        (fun a => pyLower (pyTake a.title 50))).Nodup →
      fetch_multiple_sources srcs company_name days_back =
        all_articles srcs company_name days_back) := by
  constructor
  · exact deduplicate_articles_go_sublist ∅ _
  · intro hnd
    exact deduplicate_articles_go_nodup _ ∅ hnd (by simp)

/-- Witness for `aggregator_is_filtered_concatenation` on an adapter
with two distinct-title articles. -/
theorem aggregator_is_filtered_concatenation_witness :
    ((all_articles [srcTwo] "Acme" 7).map
      (fun a => pyLower (pyTake a.title 50))).Nodup ∧
    fetch_multiple_sources [srcTwo] "Acme" 7 =
      all_articles [srcTwo] "Acme" 7 :=
  ⟨by decide,
    (aggregator_is_filtered_concatenation [srcTwo] "Acme" 7).2 (by decide)⟩

/-- **C5.**  Within the resolution pass, a judged-duplicate pair always
discards the later-or-equal-published document: on a two-element
cluster the survivor is the earlier-published one (the second on a
tie), in general every eliminated document lost a judged-duplicate
comparison against a document published no later than it, and in the
concrete identical-title one-hour-apart scenario (comparator reporting
duplicate with confidence 1 ≥ 0.6) the earlier document survives the
full `deduplicate_results`, whichever order the pair arrives in. -/
theorem resolution_discards_later_published (cmp : Cmp) (a b : Result)
    (hdup : compare_results cmp a b = true) :
    (direct_comparison cmp [a, b] =
      if b.published_on ≤ a.published_on then [b] else [a]) ∧
    (∀ (l : List Result) (x : Result), x ∈ l →
      x ∉ direct_comparison cmp l →
      ∃ y ∈ l,
        (compare_results cmp y x = true ∧
          y.published_on < x.published_on) ∨
        (compare_results cmp x y = true ∧
          y.published_on ≤ x.published_on)) ∧
    deduplicate_results cmpAlways [docLate, docEarly] = [docEarly] ∧
    deduplicate_results cmpAlways [docEarly, docLate] = [docEarly] :=
  ⟨direct_comparison_pair cmp a b hdup,
    fun l x hx hnot => direct_comparison_elim cmp l x hx hnot,
    by decide, by decide⟩

/-- Witness for `resolution_discards_later_published` on the
identical-title pair. -/
theorem resolution_discards_later_published_witness :
    compare_results cmpAlways docLate docEarly = true ∧
    direct_comparison cmpAlways [docLate, docEarly] = [docEarly] :=
  ⟨by decide, by
    have h := (resolution_discards_later_published cmpAlways docLate docEarly
      (by decide)).1
    rwa [if_pos
      (by decide : docEarly.published_on ≤ docLate.published_on)] at h⟩

theorem storeLoop_attempts (save : SignalRec → Except String Bool)
    (current : String) :
    ∀ (l : List SignalRec) (r : SignalRec),
      r ∈ (storeLoop save current l).2.1 →
      r.company_name = current ∧ r.stored = false ∧ r ∈ l := by
  intro l
  induction l with
  | nil => simp [storeLoop]
  | cons x rest ih =>
    intro r hr
    simp only [storeLoop] at hr
    by_cases hc : x.company_name = current ∧ x.stored = false
    · rw [if_pos hc] at hr
      cases hsave : save x with
      | error e =>
        rw [hsave] at hr
        simp only [List.mem_singleton] at hr
        subst hr
        exact ⟨hc.1, hc.2, List.mem_cons_self _ rest⟩
      | ok b =>
        rw [hsave] at hr
        rcases List.mem_cons.mp hr with rfl | hr'
        · exact ⟨hc.1, hc.2, List.mem_cons_self r rest⟩
        · obtain ⟨h1, h2, h3⟩ := ih r hr'
          exact ⟨h1, h2, List.mem_cons_of_mem x h3⟩
    · rw [if_neg hc] at hr
      obtain ⟨h1, h2, h3⟩ := ih r hr
      exact ⟨h1, h2, List.mem_cons_of_mem x h3⟩

theorem storeLoop_success (save : SignalRec → Except String Bool)
    (current : String) (hsave : ∀ r, save r = Except.ok true) :
    ∀ l : List SignalRec,
      storeLoop save current l =
        (l.map (fun r =>
          if r.company_name = current ∧ r.stored = false
          then { r with stored := true } else r),
         l.filter (fun r =>
          decide (r.company_name = current ∧ r.stored = false)),
         Option.none) := by
  intro l
  induction l with
  | nil => simp [storeLoop]
  | cons x rest ih =>
    simp only [storeLoop, hsave, ih]
    by_cases hc : x.company_name = current ∧ x.stored = false
    · simp [hc]
    · simp [hc]

/-- **C8.**  The analyze stage isolates per-article failures: whatever
the extraction call does on each article, the node completes with
status `storing` (routing to the store stage, never aborting), leaves
the fetched articles, article counter, company list and pointer
untouched, appends one conversion of each raised exception to the
errors list (in article order), appends exactly the successfully
extracted signals, and counts them — previously accumulated signals,
counters and errors are preserved as prefixes. -/
theorem analyzer_isolates_article_failures (col : Collab) (s : CIState) :
    (signalAnalyzerNode col s).status = "storing" ∧
    shouldContinueAfterAnalysis (signalAnalyzerNode col s) =
      Node.dataStorage ∧
    (signalAnalyzerNode col s).fetched_articles = s.fetched_articles ∧
    (signalAnalyzerNode col s).total_articles = s.total_articles ∧
    (signalAnalyzerNode col s).companies = s.companies ∧
    (signalAnalyzerNode col s).current_company = s.current_company ∧
    (signalAnalyzerNode col s).errors =
      s.errors ++
        (((dictGet s.fetched_articles
            (s.current_company.getD "")).getD []).take 10).filterMap
          (fun a =>
            match col.extractSig (s.current_company.getD "") a.text with
            | Except.error e =>
              some ("Error processing article for " ++
                (s.current_company.getD "") ++ ": " ++ e)
            | _ => Option.none) ∧
    (signalAnalyzerNode col s).extracted_signals =
      s.extracted_signals ++
        (((dictGet s.fetched_articles
            (s.current_company.getD "")).getD []).take 10).filterMap
          (fun a =>
            match col.extractSig (s.current_company.getD "") a.text with
            | Except.ok (some sg) => some
                { signal := sg, company_name := s.current_company.getD "",
                  source_url := a.link, detected_at := col.now,
                  stored := false }
            | _ => Option.none) ∧
    (signalAnalyzerNode col s).total_signals =
      s.total_signals +
        (((dictGet s.fetched_articles
            (s.current_company.getD "")).getD []).take 10).countP
          (fun a =>
            match col.extractSig (s.current_company.getD "") a.text with
            | Except.ok (some _) => true
            | _ => false) := by
  have h := processArticle_foldl col (s.current_company.getD "")
    (((dictGet s.fetched_articles (s.current_company.getD "")).getD []).take 10)
    s.extracted_signals 0 s.errors
  simp only [signalAnalyzerNode, shouldContinueAfterAnalysis, h]
  norm_num
  intro hcontra
  exact absurd hcontra (by decide)

/-- **C9.**  The store stage is idempotent: saves are attempted exactly
for the current company's not-yet-`stored` records (in list order, for
any save behaviour); with a save collaborator that succeeds, each
attempted record is marked `stored`, the node returns to `fetching`,
and a second execution of the stage on the resulting state attempts no
insert at all. -/
theorem data_storage_idempotent (col : Collab) (s : CIState)
    (hsave : ∀ r, col.save r = Except.ok true) :
    (∀ (colAny : Collab), ∀ r ∈ (dataStorageNode colAny s).2,
      r.company_name = s.current_company.getD "" ∧ r.stored = false ∧
        r ∈ s.extracted_signals) ∧
    (dataStorageNode col s).2 =
      s.extracted_signals.filter (fun r =>
        decide (r.company_name = s.current_company.getD "" ∧
          r.stored = false)) ∧
    (dataStorageNode col s).1.extracted_signals =
      s.extracted_signals.map (fun r =>
        if r.company_name = s.current_company.getD "" ∧ r.stored = false
        then { r with stored := true } else r) ∧
    (dataStorageNode col s).1.status = "fetching" ∧
    (dataStorageNode col ((dataStorageNode col s).1)).2 = [] := by
  have hloop := storeLoop_success col.save (s.current_company.getD "")
    hsave s.extracted_signals
  refine ⟨?_, ?_, ?_, ?_, ?_⟩
  · intro colAny r hr
    exact storeLoop_attempts colAny.save (s.current_company.getD "")
      s.extracted_signals r (by
        simp only [dataStorageNode] at hr
        revert hr
        cases (storeLoop colAny.save (s.current_company.getD "")
          s.extracted_signals).2.2 <;> exact fun hr => hr)
  · simp only [dataStorageNode, hloop]
  · simp only [dataStorageNode, hloop]
  · simp only [dataStorageNode, hloop]
  · simp only [dataStorageNode, hloop]
    rw [storeLoop_success col.save _ hsave]
    simp only [List.filter_eq_nil_iff]
    intro r hr
    rcases List.mem_map.mp hr with ⟨x, _, rfl⟩
    by_cases hc : x.company_name = s.current_company.getD "" ∧
        x.stored = false
    · simp [hc]
    · simp only [if_neg hc]
      simpa using hc

/-- Witness for `data_storage_idempotent` on the storage fixture
state. -/
theorem data_storage_idempotent_witness :
    colOK.save recUnstored = Except.ok true ∧
    (dataStorageNode colOK ((dataStorageNode colOK stateStore).1)).2 = [] :=
  ⟨rfl, (data_storage_idempotent colOK stateStore (fun _ => rfl)).2.2.2.2⟩

theorem indexOf_get_le (l : List String) :
    ∀ (m : Nat) (h : m < l.length), l.indexOf (l.get ⟨m, h⟩) ≤ m := by
  induction l with
  | nil => intro m h; simp at h
  | cons a t ih =>
    intro m h
    cases m with
    | zero => simp
    | succ k =>
      rw [List.get_cons_succ]
      by_cases hx : t.get ⟨k, by simpa using h⟩ = a
      · rw [hx, List.indexOf_cons_self]
        omega
      · rw [List.indexOf_cons_ne _ (Ne.symm hx)]
        exact Nat.succ_le_succ (ih k _)

theorem indexOf_lt_of_mem_take (x : String) :
    ∀ (l : List String) (j : Nat), x ∈ l.take j → l.indexOf x < j := by
  intro l
  induction l with
  | nil => intro j hx; simp at hx
  | cons a t ih =>
    intro j hx
    cases j with
    | zero => simp at hx
    | succ k =>
      rw [List.take_succ_cons] at hx
      rcases List.mem_cons.mp hx with rfl | hx'
      · rw [List.indexOf_cons_self]; omega
      · by_cases hax : x = a
        · subst hax; rw [List.indexOf_cons_self]; omega
        · rw [List.indexOf_cons_ne _ (Ne.symm hax)]
          exact Nat.succ_lt_succ (ih k hx')

theorem nodup_indexOf_get (l : List String) (hl : l.Nodup) :
    ∀ (m : Nat) (h : m < l.length), l.indexOf (l.get ⟨m, h⟩) = m := by
  induction l with
  | nil => intro m h; simp at h
  | cons a t ih =>
    intro m h
    rw [List.nodup_cons] at hl
    cases m with
    | zero => simp
    | succ k =>
      rw [List.get_cons_succ]
      have hx : t.get ⟨k, by simpa using h⟩ ≠ a := by
        intro heq
        exact hl.1 (heq ▸ List.get_mem t _ _)
      rw [List.indexOf_cons_ne _ (Ne.symm hx)]
      rw [ih hl.2 k _]

theorem exists_mem_take (l : List String) (h : ¬ l.Nodup) :
    ∃ j, ∃ hj : j < l.length, l.get ⟨j, hj⟩ ∈ l.take j := by
  induction l with
  | nil => exact absurd List.nodup_nil h
  | cons a t ih =>
    by_cases ha : a ∈ t
    · obtain ⟨⟨iv, hiv⟩, hget⟩ := List.mem_iff_get.mp ha
      refine ⟨iv + 1, by simpa using Nat.succ_lt_succ hiv, ?_⟩
      rw [List.get_cons_succ, List.take_succ_cons]
      have hthis : t.get ⟨iv, hiv⟩ ∈ a :: t.take iv := by
        rw [hget]; exact List.mem_cons_self a _
      exact hthis
    · have ht : ¬ t.Nodup := fun hnd => h (List.nodup_cons.mpr ⟨ha, hnd⟩)
      obtain ⟨j, hj, hmem⟩ := ih ht
      refine ⟨j + 1, by simpa using Nat.succ_lt_succ hj, ?_⟩
      rw [List.get_cons_succ, List.take_succ_cons]
      exact List.mem_cons_of_mem a hmem

theorem storeLoop_no_error (save : SignalRec → Except String Bool)
    (current : String)
    (hsave : ∀ r, ∃ b, save r = Except.ok b) :
    ∀ l : List SignalRec,
      (storeLoop save current l).2.2 = Option.none := by
  intro l
  induction l with
  | nil => simp [storeLoop]
  | cons x rest ih =>
    simp only [storeLoop]
    by_cases hc : x.company_name = current ∧ x.stored = false
    · rw [if_pos hc]
      obtain ⟨b, hb⟩ := hsave x
      rw [hb]
      simpa using ih
    · rw [if_neg hc]
      simpa using ih

theorem find_map_insert {α : Type} (k : String) (v : α) :
    ∀ d : List (String × α), d.any (fun p => p.1 = k) = true →
      ((d.map (fun p => if p.1 = k then (k, v) else p)).find?
        (fun p => p.1 = k)) = some (k, v) := by
  intro d
  induction d with
  | nil => intro h; simp at h
  | cons p rest ih =>
    intro h
    by_cases hp : p.1 = k
    · simp only [List.map_cons, if_pos hp]
      rw [List.find?_cons_of_pos]
      simp
    · simp only [List.map_cons, if_neg hp]
      rw [List.find?_cons_of_neg]
      · apply ih
        simpa [hp] using h
      · simpa using hp

theorem dictGet_insert_self {α : Type} (d : List (String × α)) (k : String)
    (v : α) : dictGet (dictInsert d k v) k = some v := by
  unfold dictInsert
  split
  · next hany =>
    unfold dictGet
    rw [find_map_insert k v d hany]
    rfl
  · next hany =>
    unfold dictGet
    rw [List.find?_append]
    have hnone : d.find? (fun p => decide (p.1 = k)) = Option.none := by
      rw [List.find?_eq_none]
      intro x hx hpx
      exact hany (List.any_eq_true.mpr ⟨x, hx, hpx⟩)
    rw [hnone]
    simp [List.find?]

theorem dictInsert_absent {α : Type} (d : List (String × α)) (k : String)
    (v : α) (h : ¬ d.any (fun p => p.1 = k) = true) :
    dictInsert d k v = d ++ [(k, v)] := by
  unfold dictInsert
  rw [if_neg h]

theorem current_idx_lt (companies : List String) (j : Nat)
    (hj : j < companies.length)
    (hrep : companies.get ⟨j, hj⟩ ∈ companies.take j)
    (m : Nat) (hm : m < companies.length) (hmj : m ≤ j) :
    companies.indexOf (companies.get ⟨m, hm⟩) < j := by
  rcases Nat.lt_or_ge m j with h | h
  · exact lt_of_le_of_lt (indexOf_get_le companies m hm) h
  · have hmeq : m = j := le_antisymm hmj h
    subst hmeq
    exact indexOf_lt_of_mem_take _ companies _ hrep

theorem current_idx_lt_of_bad (companies : List String) (j : Nat)
    (hj : j < companies.length)
    (hbad : companies.get ⟨j, hj⟩ ∈ companies.take j ∨
      companies.get ⟨j, hj⟩ = "")
    (m : Nat) (hm : m < companies.length) (hmj : m ≤ j)
    (hne : companies.get ⟨m, hm⟩ ≠ "") :
    companies.indexOf (companies.get ⟨m, hm⟩) < j := by
  rcases hbad with hrep | hemp
  · exact current_idx_lt companies j hj hrep m hm hmj
  · rcases Nat.lt_or_ge m j with h | h
    · exact lt_of_le_of_lt (indexOf_get_le companies m hm) h
    · have hmeq : m = j := le_antisymm hmj h
      subst hmeq
      exact absurd hemp hne

theorem route_after_storage_planner (s : CIState)
    (hst : s.status ≠ "error")
    (h : ∀ current, s.current_company = some current → current ≠ "" →
      s.companies.indexOf current + 1 < s.companies.length) :
    shouldContinueAfterStorage s = Node.planner := by
  unfold shouldContinueAfterStorage
  rw [if_neg hst]
  by_cases h2 : pyTruthy s.current_company = true ∧ s.companies ≠ []
  · rw [if_pos h2]
    cases hc : s.current_company with
    | none =>
      rw [hc] at h2
      exact absurd h2.1 (by decide)
    | some current =>
      have hcur : current ≠ "" := by
        have h3 := h2.1
        rw [hc] at h3
        have h4 : decide (current ≠ "") = true := h3
        exact of_decide_eq_true h4
      have hlt := h current hc hcur
      simp only [Option.getD_some]
      rw [if_neg (by omega)]
  · rw [if_neg h2]

theorem route_after_storage_summarizer (s : CIState)
    (hst : s.status ≠ "error") (current : String)
    (hc : s.current_company = some current) (hcur : current ≠ "")
    (hcmp : s.companies ≠ [])
    (hge : s.companies.length ≤ s.companies.indexOf current + 1) :
    shouldContinueAfterStorage s = Node.summarizer := by
  have h2 : pyTruthy s.current_company = true ∧ s.companies ≠ [] := by
    refine ⟨?_, hcmp⟩
    rw [hc]
    show decide (current ≠ "") = true
    exact decide_eq_true hcur
  unfold shouldContinueAfterStorage
  rw [if_neg hst, if_pos h2, hc]
  simp only [Option.getD_some]
  rw [if_pos hge]

theorem machineInv_step (col : Collab) (j : Nat)
    (hfetch : ∀ c d, ∃ as, col.fetch c d = Except.ok as)
    (hsave : ∀ r, ∃ b, col.save r = Except.ok b)
    (node : Node) (s : CIState)
    (hj : j < s.companies.length)
    (hbad : s.companies.get ⟨j, hj⟩ ∈ s.companies.take j ∨
      s.companies.get ⟨j, hj⟩ = "")
    (hp : MachineInv s.companies j (node, s)) :
    ∃ q, stepRun col (node, s) = some q ∧
      MachineInv s.companies j q ∧ q.2.companies = s.companies := by
  obtain ⟨-, hnc, hne, hnode, hcur⟩ := hp
  rcases hnode with hn | hn | hn | hn <;>
    simp only at hn <;> subst hn
  · -- planner
    cases hc : s.current_company with
    | none =>
      have hcond : pyTruthy s.current_company = false ∧
          s.companies ≠ [] := by
        rw [hc]
        exact ⟨rfl, List.ne_nil_of_length_pos (by omega)⟩
      have hplan : plannerNode s = { s with
          current_company := some (s.companies.getD 0 ""),
          status := "fetching",
          progress := "Starting analysis for " ++ s.companies.getD 0 "" } := by
        unfold plannerNode
        rw [if_pos hcond]
      refine ⟨(Node.newsFetcher, { s with
          current_company := some (s.companies.getD 0 ""),
          status := "fetching",
          progress := "Starting analysis for " ++ s.companies.getD 0 "" }),
          ?_, ?_, rfl⟩
      · show some (routeFrom Node.planner (plannerNode s), plannerNode s) = _
        rw [hplan]
        rfl
      · refine ⟨rfl, by simp, by simp, Or.inr (Or.inl rfl), ?_⟩
        have h0 : 0 < s.companies.length := by omega
        exact ⟨⟨0, h0, Nat.zero_le j,
          (List.getD_eq_get s.companies "" h0)⟩,
          fun hx => absurd rfl hx⟩
    | some c =>
      simp only [hc] at hcur
      obtain ⟨⟨m, hm, hmj, hceq⟩, hfs⟩ := hcur
      have hfs' : (dictGet s.fetched_articles c).isSome = true := hfs (by simp)
      rcases eq_or_ne c "" with hce | hce
      · -- a falsy (empty-string) current company re-triggers the init branch
        have hcond : pyTruthy s.current_company = false ∧
            s.companies ≠ [] := by
          rw [hc, hce]
          exact ⟨rfl, List.ne_nil_of_length_pos (by omega)⟩
        have hplan : plannerNode s = { s with
            current_company := some (s.companies.getD 0 ""),
            status := "fetching",
            progress := "Starting analysis for " ++ s.companies.getD 0 "" } := by
          unfold plannerNode
          rw [if_pos hcond]
        refine ⟨(Node.newsFetcher, { s with
            current_company := some (s.companies.getD 0 ""),
            status := "fetching",
            progress := "Starting analysis for " ++ s.companies.getD 0 "" }),
            ?_, ?_, rfl⟩
        · show some (routeFrom Node.planner (plannerNode s), plannerNode s) = _
          rw [hplan]
          rfl
        · refine ⟨rfl, by simp, by simp, Or.inr (Or.inl rfl), ?_⟩
          have h0 : 0 < s.companies.length := by omega
          exact ⟨⟨0, h0, Nat.zero_le j,
            (List.getD_eq_get s.companies "" h0)⟩,
            fun hx => absurd rfl hx⟩
      · -- a truthy current company advances via its first-occurrence index
        have hidx : s.companies.indexOf c < j := by
          rw [hceq]
          exact current_idx_lt_of_bad s.companies j hj hbad m hm hmj
            (fun h => hce (hceq.trans h))
        have hlt : s.companies.indexOf c + 1 < s.companies.length := by omega
        have hnc1 : ¬ (pyTruthy s.current_company = false ∧
            s.companies ≠ []) := by
          rw [hc]
          rintro ⟨h1, -⟩
          have h1x : decide (c ≠ "") = false := h1
          exact (of_decide_eq_false h1x) hce
        have hcf : currentFetched s = true := by
          unfold currentFetched
          rw [hc]
          exact hfs'
        have hplan : plannerNode s = { s with
            current_company := some (s.companies.getD
              (s.companies.indexOf c + 1) ""),
            status := "fetching",
            progress := "Starting analysis for " ++ s.companies.getD
              (s.companies.indexOf c + 1) "" } := by
          unfold plannerNode
          rw [if_neg hnc1, if_pos hcf, hc]
          simp only [Option.getD_some]
          rw [if_pos hlt]
        refine ⟨(Node.newsFetcher, { s with
            current_company := some (s.companies.getD
              (s.companies.indexOf c + 1) ""),
            status := "fetching",
            progress := "Starting analysis for " ++ s.companies.getD
              (s.companies.indexOf c + 1) "" }), ?_, ?_, rfl⟩
        · show some (routeFrom Node.planner (plannerNode s), plannerNode s) = _
          rw [hplan]
          rfl
        · refine ⟨rfl, by simp, by simp, Or.inr (Or.inl rfl), ?_⟩
          exact ⟨⟨s.companies.indexOf c + 1, hlt, by omega,
            (List.getD_eq_get s.companies "" hlt)⟩,
            fun hx => absurd rfl hx⟩
  · -- newsFetcher
    cases hc : s.current_company with
    | none =>
      simp only [hc] at hcur
      exact absurd hcur (by simp)
    | some c =>
      simp only [hc] at hcur
      obtain ⟨⟨m, hm, hmj, hceq⟩, -⟩ := hcur
      obtain ⟨as, has⟩ := hfetch c s.days_back
      have hfn : newsFetcherNode col s = { s with
          fetched_articles := dictInsert s.fetched_articles c
            (as.map toArticle),
          total_articles := s.total_articles + as.length,
          status := "analyzing",
          progress := "Found articles for " ++ c } := by
        simp only [newsFetcherNode, hc, Option.getD_some, has]
      refine ⟨(Node.signalAnalyzer, { s with
          fetched_articles := dictInsert s.fetched_articles c
            (as.map toArticle),
          total_articles := s.total_articles + as.length,
          status := "analyzing",
          progress := "Found articles for " ++ c }), ?_, ?_, rfl⟩
      · show some (routeFrom Node.newsFetcher (newsFetcherNode col s),
          newsFetcherNode col s) = _
        rw [hfn]
        rfl
      · refine ⟨rfl, by simp, by simp, Or.inr (Or.inr (Or.inl rfl)), ?_⟩
        have hcc : ({ s with
            fetched_articles := dictInsert s.fetched_articles c
              (as.map toArticle),
            total_articles := s.total_articles + as.length,
            status := "analyzing",
            progress := "Found articles for " ++ c } : CIState).current_company
            = some c := hc
        rw [hcc]
        refine ⟨⟨m, hm, hmj, hceq⟩, fun _ => ?_⟩
        show (dictGet (dictInsert s.fetched_articles c (as.map toArticle))
          c).isSome = true
        rw [dictGet_insert_self]
        rfl
  · -- signalAnalyzer
    cases hc : s.current_company with
    | none =>
      simp only [hc] at hcur
      exact absurd hcur (by simp)
    | some c =>
      simp only [hc] at hcur
      obtain ⟨⟨m, hm, hmj, hceq⟩, hfs⟩ := hcur
      have hfs' : (dictGet s.fetched_articles c).isSome = true := hfs (by simp)
      refine ⟨(Node.dataStorage, signalAnalyzerNode col s), rfl, ?_, rfl⟩
      refine ⟨rfl, by simp [signalAnalyzerNode],
        by simp [signalAnalyzerNode], Or.inr (Or.inr (Or.inr rfl)), ?_⟩
      have hcc : (signalAnalyzerNode col s).current_company = some c := hc
      rw [hcc]
      refine ⟨⟨m, hm, hmj, hceq⟩, fun _ => ?_⟩
      show (dictGet s.fetched_articles c).isSome = true
      exact hfs'
  · -- dataStorage
    cases hc : s.current_company with
    | none =>
      simp only [hc] at hcur
      exact absurd hcur (by simp)
    | some c =>
      simp only [hc] at hcur
      obtain ⟨⟨m, hm, hmj, hceq⟩, hfs⟩ := hcur
      have hfs' : (dictGet s.fetched_articles c).isSome = true := hfs (by simp)
      have hnoerr := storeLoop_no_error col.save c hsave s.extracted_signals
      have hstore : (dataStorageNode col s).1 = { s with
          extracted_signals :=
            (storeLoop col.save c s.extracted_signals).1,
          status := "fetching",
          progress := "Stored signals for " ++ c } := by
        simp only [dataStorageNode, hc, Option.getD_some, hnoerr]
      have hroute : shouldContinueAfterStorage ({ s with
          extracted_signals :=
            (storeLoop col.save c s.extracted_signals).1,
          status := "fetching",
          progress := "Stored signals for " ++ c } : CIState) =
          Node.planner := by
        apply route_after_storage_planner
        · show ("fetching" : String) ≠ "error"
          decide
        · intro current hcc hcurne
          have hcc2 : s.current_company = some current := hcc
          obtain rfl : c = current :=
            Option.some.inj (hc.symm.trans hcc2)
          show s.companies.indexOf c + 1 < s.companies.length
          have hidx : s.companies.indexOf c < j := by
            rw [hceq]
            exact current_idx_lt_of_bad s.companies j hj hbad m hm hmj
              (fun h => hcurne (hceq.trans h))
          omega
      refine ⟨(Node.planner, { s with
          extracted_signals :=
            (storeLoop col.save c s.extracted_signals).1,
          status := "fetching",
          progress := "Stored signals for " ++ c }), ?_, ?_, rfl⟩
      · show some (routeFrom Node.dataStorage (dataStorageNode col s).1,
          (dataStorageNode col s).1) = _
        rw [hstore]
        show some (shouldContinueAfterStorage _, _) = _
        rw [hroute]
      · refine ⟨rfl, by simp, by simp, Or.inl rfl, ?_⟩
        have hcc : ({ s with
            extracted_signals :=
              (storeLoop col.save c s.extracted_signals).1,
            status := "fetching",
            progress := "Stored signals for " ++ c } : CIState).current_company
            = some c := hc
        rw [hcc]
        refine ⟨⟨m, hm, hmj, hceq⟩, fun _ => hfs'⟩

theorem nodup_get_not_mem_take (l : List String) (hl : l.Nodup) (i : Nat)
    (hi : i < l.length) : l.get ⟨i, hi⟩ ∉ l.take i := by
  intro hmem
  have hlt := indexOf_lt_of_mem_take _ l i hmem
  rw [nodup_indexOf_get l hl i hi] at hlt
  omega

theorem dictGet_mapFetched_isSome (f : String → List Result) :
    ∀ (cs : List String) (c : String), c ∈ cs →
      (dictGet (mapFetched f cs) c).isSome = true := by
  intro cs
  induction cs with
  | nil => intro c hc; simp at hc
  | cons a t ih =>
    intro c hc
    show (dictGet ((a, (f a).map toArticle) ::
      mapFetched f t) c).isSome = true
    unfold dictGet
    by_cases hac : a = c
    · rw [List.find?_cons_of_pos]
      · simp
      · simpa using hac
    · rw [List.find?_cons_of_neg]
      · have ht : c ∈ t := by
          rcases List.mem_cons.mp hc with h | h
          · exact absurd h.symm hac
          · exact h
        exact ih c ht
      · simpa using hac

theorem mapFetched_not_key (f : String → List Result) (cs : List String)
    (k : String) (hk : k ∉ cs) :
    ¬ (mapFetched f cs).any (fun p => p.1 = k) = true := by
  intro hany
  obtain ⟨p, hp, hpk⟩ := List.any_eq_true.mp hany
  obtain ⟨c, hc, rfl⟩ := List.mem_map.mp hp
  have hck : c = k := by simpa using hpk
  exact hk (hck ▸ hc)

theorem mapFetched_append_one (f : String → List Result) (cs : List String)
    (c : String) :
    mapFetched f (cs ++ [c]) =
      mapFetched f cs ++ [(c, (f c).map toArticle)] := by
  simp [mapFetched]

theorem get_mem_take (l : List String) :
    ∀ (m i : Nat) (hm : m < l.length), m < i → l.get ⟨m, hm⟩ ∈ l.take i := by
  induction l with
  | nil => intro m i hm _; simp at hm
  | cons a t ih =>
    intro m i hm hmi
    cases m with
    | zero =>
      cases i with
      | zero => omega
      | succ i' => rw [List.take_succ_cons]; exact List.mem_cons_self _ _
    | succ m' =>
      cases i with
      | zero => omega
      | succ i' =>
        rw [List.take_succ_cons, List.get_cons_succ]
        exact List.mem_cons_of_mem a (ih m' i' _ (by omega))

theorem summarizer_fetched (s : CIState) :
    (summarizerNode s).fetched_articles = s.fetched_articles := by
  unfold summarizerNode
  by_cases h : s.extracted_signals.isEmpty = true <;> simp [h]

theorem summarizer_total (s : CIState) :
    (summarizerNode s).total_articles = s.total_articles := by
  unfold summarizerNode
  by_cases h : s.extracted_signals.isEmpty = true <;> simp [h]

theorem runMachine_peel (col : Collab) (f : Nat) (p q : Node × CIState)
    (h : stepRun col p = some q) :
    runMachine col (f + 1) p = runMachine col f q := by
  simp only [runMachine, h]

theorem distinct_run_segment (col : Collab)
    (fetchOut : String → List Result)
    (hfetch : ∀ c d, col.fetch c d = Except.ok (fetchOut c))
    (hsave : ∀ r, ∃ b, col.save r = Except.ok b)
    (companies : List String) (hnd : companies.Nodup)
    (hemp : "" ∉ companies) :
    ∀ (k : Nat), ∀ (i : Nat) (s : CIState),
      i + k = companies.length → 1 ≤ k →
      s.companies = companies →
      s.current_company = (if i = 0 then Option.none
        else some (companies.getD (i - 1) "")) →
      s.fetched_articles = mapFetched fetchOut (companies.take i) →
      s.total_articles =
        ((companies.take i).map (fun c => (fetchOut c).length)).sum →
      ∃ final : CIState,
        runMachine col (4 * k + 1) (Node.planner, s) =
          (Node.endNode, final) ∧
        final.fetched_articles = mapFetched fetchOut companies ∧
        final.total_articles =
          (companies.map (fun c => (fetchOut c).length)).sum := by
  intro k
  induction k with
  | zero => intro i s _ hk; omega
  | succ k ih =>
    intro i s hik hk hsc hcur hfA htot
    have hi : i < companies.length := by omega
    have hci : companies.getD i "" = companies.get ⟨i, hi⟩ :=
      List.getD_eq_get companies "" hi
    -- step 1: the planner selects company i
    have hs1 : plannerNode s = { s with
        current_company := some (companies.getD i ""),
        status := "fetching",
        progress := "Starting analysis for " ++ companies.getD i "" } := by
      by_cases hi0 : i = 0
      · subst hi0
        rw [if_pos rfl] at hcur
        have hcond : pyTruthy s.current_company = false ∧
            s.companies ≠ [] := by
          rw [hcur, hsc]
          exact ⟨rfl, List.ne_nil_of_length_pos (by omega)⟩
        unfold plannerNode
        rw [if_pos hcond, hsc]
      · rw [if_neg hi0] at hcur
        have hip : i - 1 < companies.length := by omega
        have hprev : companies.getD (i - 1) "" =
            companies.get ⟨i - 1, hip⟩ :=
          List.getD_eq_get companies "" hip
        have hpne : companies.getD (i - 1) "" ≠ "" := by
          rw [hprev]
          intro h
          exact hemp (h ▸ List.get_mem companies _ _)
        have hfs : (dictGet s.fetched_articles
            (companies.getD (i - 1) "")).isSome = true := by
          rw [hfA, hprev]
          exact dictGet_mapFetched_isSome fetchOut _ _
            (get_mem_take companies (i - 1) i hip (by omega))
        have hnc1 : ¬ (pyTruthy s.current_company = false ∧
            s.companies ≠ []) := by
          rw [hcur]
          rintro ⟨h1, -⟩
          have h1x : decide (companies.getD (i - 1) "" ≠ "") = false := h1
          exact (of_decide_eq_false h1x) hpne
        have hcf : currentFetched s = true := by
          unfold currentFetched
          rw [hcur]
          exact hfs
        have hidx : s.companies.indexOf (companies.getD (i - 1) "") =
            i - 1 := by
          rw [hsc, hprev]
          exact nodup_indexOf_get companies hnd (i - 1) hip
        have hlt : s.companies.indexOf (companies.getD (i - 1) "") + 1 <
            s.companies.length := by
          rw [hidx, hsc]; omega
        have hiadd : i - 1 + 1 = i := by omega
        unfold plannerNode
        rw [if_neg hnc1, if_pos hcf, hcur]
        simp only [Option.getD_some]
        rw [if_pos hlt, hidx, hiadd, hsc]
    set ci := companies.getD i "" with hci_def
    have hcine : ci ≠ "" := by
      rw [hci]
      intro h
      exact hemp (h ▸ List.get_mem companies _ _)
    set s1 : CIState := { s with
        current_company := some ci,
        status := "fetching",
        progress := "Starting analysis for " ++ ci } with hs1_def
    have hstep1 : stepRun col (Node.planner, s) =
        some (Node.newsFetcher, s1) := by
      show some (routeFrom Node.planner (plannerNode s), plannerNode s) = _
      rw [hs1]
      rfl
    -- step 2: fetch company i
    have hnk : ci ∉ companies.take i := by
      rw [hci]
      exact nodup_get_not_mem_take companies hnd i hi
    have htc : companies.take (i + 1) =
        companies.take i ++ [companies.get ⟨i, hi⟩] := by
      have h := List.take_concat_get companies i hi
      rw [List.concat_eq_append] at h
      exact h.symm
    have hins : dictInsert s.fetched_articles ci
        ((fetchOut ci).map toArticle) =
        mapFetched fetchOut (companies.take (i + 1)) := by
      rw [hfA, dictInsert_absent _ _ _ (mapFetched_not_key fetchOut _ _ hnk),
        ← mapFetched_append_one]
      congr 1
      rw [hci]
      exact htc.symm
    have hsum : s.total_articles + (fetchOut ci).length =
        ((companies.take (i + 1)).map
          (fun c => (fetchOut c).length)).sum := by
      rw [htot, htc, List.map_append, List.sum_append]
      simp [hci]
    set s2 : CIState := { s with
        current_company := some ci,
        fetched_articles := mapFetched fetchOut (companies.take (i + 1)),
        total_articles := ((companies.take (i + 1)).map
          (fun c => (fetchOut c).length)).sum,
        status := "analyzing",
        progress := "Found articles for " ++ ci } with hs2_def
    have hfn : newsFetcherNode col s1 = s2 := by
      simp only [hs1_def, hs2_def, newsFetcherNode, Option.getD_some,
        hfetch, hins, hsum]
    have hstep2 : stepRun col (Node.newsFetcher, s1) =
        some (Node.signalAnalyzer, s2) := by
      show some (routeFrom Node.newsFetcher (newsFetcherNode col s1),
        newsFetcherNode col s1) = _
      rw [hfn]
      rfl
    -- step 3: analyze
    set s3 : CIState := signalAnalyzerNode col s2 with hs3_def
    have hstep3 : stepRun col (Node.signalAnalyzer, s2) =
        some (Node.dataStorage, s3) := rfl
    have hc3 : s3.current_company = some ci := rfl
    -- step 4: store
    have hnoerr := storeLoop_no_error col.save ci hsave s3.extracted_signals
    set s4 : CIState := { s3 with
        extracted_signals := (storeLoop col.save ci s3.extracted_signals).1,
        status := "fetching",
        progress := "Stored signals for " ++ ci } with hs4_def
    have hstore : (dataStorageNode col s3).1 = s4 := by
      simp only [dataStorageNode, hc3, Option.getD_some, hnoerr, hs4_def]
    have hidx4 : s4.companies.indexOf ci = i := by
      show s.companies.indexOf ci = i
      rw [hsc, hci]
      exact nodup_indexOf_get companies hnd i hi
    have hst4 : s4.status = "fetching" := rfl
    have hc4 : s4.current_company = some ci := rfl
    rcases Nat.eq_zero_or_pos k with hk0 | hkpos
    · -- last company
      subst hk0
      have hlast : i + 1 = companies.length := by omega
      have herr4 : s4.status ≠ "error" := by
        rw [hst4]; decide
      have hroute4 : shouldContinueAfterStorage s4 = Node.summarizer := by
        apply route_after_storage_summarizer s4 herr4 ci hc4 hcine
        · show s.companies ≠ []
          rw [hsc]
          exact List.ne_nil_of_length_pos (by omega)
        · rw [hidx4]
          show s.companies.length ≤ i + 1
          rw [hsc]
          omega
      have hstep4 : stepRun col (Node.dataStorage, s3) =
          some (Node.summarizer, s4) := by
        show some (routeFrom Node.dataStorage (dataStorageNode col s3).1,
          (dataStorageNode col s3).1) = _
        rw [hstore]
        show some (shouldContinueAfterStorage s4, s4) = _
        rw [hroute4]
      have hstep5 : stepRun col (Node.summarizer, s4) =
          some (Node.endNode, summarizerNode s4) := rfl
      refine ⟨summarizerNode s4, ?_, ?_, ?_⟩
      · have hfuel : 4 * (0 + 1) + 1 = 0 + 1 + 1 + 1 + 1 + 1 := by
          norm_num
        rw [hfuel, runMachine_peel col _ _ _ hstep1,
          runMachine_peel col _ _ _ hstep2,
          runMachine_peel col _ _ _ hstep3,
          runMachine_peel col _ _ _ hstep4,
          runMachine_peel col _ _ _ hstep5]
        rfl
      · rw [summarizer_fetched]
        show mapFetched fetchOut (companies.take (i + 1)) = _
        rw [hlast, List.take_length]
      · rw [summarizer_total]
        show ((companies.take (i + 1)).map
          (fun c => (fetchOut c).length)).sum = _
        rw [hlast, List.take_length]
    · -- more companies remain
      have herr4 : s4.status ≠ "error" := by
        rw [hst4]; decide
      have hroute4 : shouldContinueAfterStorage s4 = Node.planner := by
        apply route_after_storage_planner s4 herr4
        intro current hcc hcurne
        obtain rfl : ci = current := Option.some.inj (hc4.symm.trans hcc)
        rw [hidx4]
        show i + 1 < s.companies.length
        rw [hsc]
        omega
      have hstep4 : stepRun col (Node.dataStorage, s3) =
          some (Node.planner, s4) := by
        show some (routeFrom Node.dataStorage (dataStorageNode col s3).1,
          (dataStorageNode col s3).1) = _
        rw [hstore]
        show some (shouldContinueAfterStorage s4, s4) = _
        rw [hroute4]
      have hnext : s4.current_company = (if i + 1 = 0 then Option.none
          else some (companies.getD (i + 1 - 1) "")) := by
        rw [if_neg (by omega : ¬ i + 1 = 0)]
        simp only [Nat.add_sub_cancel]
        exact hc4
      obtain ⟨final, hrun, hff, hft⟩ := ih (i + 1) s4 (by omega) hkpos
        (show s4.companies = companies from hsc) hnext rfl rfl
      refine ⟨final, ?_, hff, hft⟩
      have hfuel : 4 * (k + 1) + 1 = 4 * k + 1 + 1 + 1 + 1 + 1 := by ring
      rw [hfuel, runMachine_peel col _ _ _ hstep1,
        runMachine_peel col _ _ _ hstep2,
        runMachine_peel col _ _ _ hstep3,
        runMachine_peel col _ _ _ hstep4]
      exact hrun

theorem machineInv_run (col : Collab) (companies : List String) (j : Nat)
    (hfetch : ∀ c d, ∃ as, col.fetch c d = Except.ok as)
    (hsave : ∀ r, ∃ b, col.save r = Except.ok b)
    (hj : j < companies.length)
    (hbad : companies.get ⟨j, hj⟩ ∈ companies.take j ∨
      companies.get ⟨j, hj⟩ = "") :
    ∀ (fuel : Nat) (p : Node × CIState), p.2.companies = companies →
      MachineInv companies j p →
      MachineInv companies j (runMachine col fuel p) := by
  intro fuel
  induction fuel with
  | zero => intro p _ hp; exact hp
  | succ f ih =>
    intro p hpc hp
    obtain ⟨n, s⟩ := p
    have hsc : s.companies = companies := hpc
    subst hsc
    obtain ⟨q, hq, hinvq, hqc⟩ :=
      machineInv_step col j hfetch hsave n s hj hbad hp
    rw [runMachine_peel col f (n, s) q hq]
    exact ih q hqc hinvq

/-- **C10 counterexample.**  The single-element list `[""]` is
pairwise distinct, yet with all-succeeding collaborators the run never
reaches the `END` node and never reaches status `"complete"`, at any
fuel: once the empty-string company finishes its storage pass, the
truthiness test `if current_company and companies:` skips the
last-company check, and `if not current_company and companies:`
re-selects `companies[0]` forever. -/
theorem distinct_empty_company_never_completes :
    ([""] : List String).Nodup ∧
    ∀ fuel : Nat,
      (runMachine colOK fuel (Node.planner,
          initialState [""] 7)).1 ≠ Node.endNode ∧
      (runMachine colOK fuel (Node.planner,
          initialState [""] 7)).2.status ≠ "complete" := by
  refine ⟨by decide, fun fuel => ?_⟩
  have hj : 0 < ([""] : List String).length := by decide
  have hbad : ([""] : List String).get ⟨0, hj⟩ ∈
      ([""] : List String).take 0 ∨
      ([""] : List String).get ⟨0, hj⟩ = "" := Or.inr rfl
  have hfetch : ∀ c d, ∃ as, colOK.fetch c d = Except.ok as :=
    fun _ _ => ⟨[docEarly], rfl⟩
  have hsave : ∀ r, ∃ b, colOK.save r = Except.ok b :=
    fun _ => ⟨true, rfl⟩
  have hinv0 : MachineInv [""] 0 (Node.planner, initialState [""] 7) :=
    ⟨rfl, by decide, by decide, Or.inl rfl, rfl⟩
  obtain ⟨-, hcomp, -, hnode, -⟩ :=
    machineInv_run colOK [""] 0 hfetch hsave hj hbad fuel
      (Node.planner, initialState [""] 7) rfl hinv0
  refine ⟨?_, hcomp⟩
  rcases hnode with h | h | h | h <;> rw [h] <;> decide

/-- **C10 (amended).**  Termination of the orchestrator state machine
needs the company names to be pairwise distinct AND all truthy
(non-empty): the planner and the after-storage router locate the
current company with Python truthiness tests and `companies.index`,
the first-occurrence index.  With a fetcher that succeeds
deterministically and a store that succeeds: if the company list has a
repeated name or contains the empty string, the run never reaches the
`END` node and never reaches status `"complete"`, at any fuel; if the
names are pairwise distinct and non-empty, the run reaches `END`
within `4·n + 1` steps with every company fetched exactly once, in
input order, and the article total summed over all companies. -/
theorem orchestrator_termination_needs_distinct_truthy (col : Collab)
    (fetchOut : String → List Result)
    (hfetch : ∀ c d, col.fetch c d = Except.ok (fetchOut c))
    (hsave : ∀ r, ∃ b, col.save r = Except.ok b)
    (companies : List String) (days : Int) (hne : companies ≠ []) :
    ((¬ companies.Nodup ∨ "" ∈ companies) → ∀ fuel : Nat,
        (runMachine col fuel (Node.planner,
            initialState companies days)).1 ≠ Node.endNode ∧
        (runMachine col fuel (Node.planner,
            initialState companies days)).2.status ≠ "complete") ∧
    (companies.Nodup → "" ∉ companies →
      ∃ final : CIState,
        runMachine col (4 * companies.length + 1) (Node.planner,
            initialState companies days) = (Node.endNode, final) ∧
        final.fetched_articles = mapFetched fetchOut companies ∧
        final.total_articles =
          (companies.map (fun c => (fetchOut c).length)).sum) := by
  constructor
  · intro hbad0 fuel
    obtain ⟨j, hj, hbad⟩ : ∃ j, ∃ hj : j < companies.length,
        companies.get ⟨j, hj⟩ ∈ companies.take j ∨
        companies.get ⟨j, hj⟩ = "" := by
      rcases hbad0 with hdup | hmem
      · obtain ⟨j, hj, hr⟩ := exists_mem_take companies hdup
        exact ⟨j, hj, Or.inl hr⟩
      · obtain ⟨⟨m, hm⟩, hget⟩ := List.mem_iff_get.mp hmem
        exact ⟨m, hm, Or.inr hget⟩
    have hfetch2 : ∀ c d, ∃ as, col.fetch c d = Except.ok as :=
      fun c d => ⟨fetchOut c, hfetch c d⟩
    have hinv0 : MachineInv companies j
        (Node.planner, initialState companies days) :=
      ⟨rfl, by simp [initialState], by simp [initialState],
        Or.inl rfl, rfl⟩
    obtain ⟨-, hcomp, -, hnode, -⟩ :=
      machineInv_run col companies j hfetch2 hsave hj hbad fuel
        (Node.planner, initialState companies days) rfl hinv0
    refine ⟨?_, hcomp⟩
    rcases hnode with h | h | h | h <;> rw [h] <;> decide
  · intro hnd hemp
    have hk : 1 ≤ companies.length := by
      cases companies with
      | nil => exact absurd rfl hne
      | cons a t => simp
    exact distinct_run_segment col fetchOut hfetch hsave companies hnd
      hemp companies.length 0 (initialState companies days) (by omega)
      hk rfl rfl rfl rfl

/-- Witness for `orchestrator_termination_needs_distinct_truthy`: with
the all-succeeding collaborators `colOK`, the duplicated list
`["A", "A"]` has not reached `END` after 20 steps, while the distinct
all-truthy list `["A", "B"]` reaches `END` in 9 steps with both
companies fetched once each. -/
theorem orchestrator_termination_needs_distinct_truthy_witness :
    ((runMachine colOK 20 (Node.planner,
        initialState ["A", "A"] 7)).1 ≠ Node.endNode) ∧
    (∃ final : CIState,
      runMachine colOK 9 (Node.planner, initialState ["A", "B"] 7) =
          (Node.endNode, final) ∧
        final.fetched_articles =
          mapFetched (fun _ => [docEarly]) ["A", "B"] ∧
        final.total_articles =
          ((["A", "B"]).map
            (fun c => ((fun _ => [docEarly]) c).length)).sum) := by
  constructor
  · exact ((orchestrator_termination_needs_distinct_truthy colOK
      (fun _ => [docEarly]) (fun _ _ => rfl) (fun _ => ⟨true, rfl⟩)
      ["A", "A"] 7 (by decide)).1 (Or.inl (by decide)) 20).1
  · exact (orchestrator_termination_needs_distinct_truthy colOK
      (fun _ => [docEarly]) (fun _ _ => rfl) (fun _ => ⟨true, rfl⟩)
      ["A", "B"] 7 (by decide)).2 (by decide) (by decide)
